import Mathlib

/-! liquid-dsp: soft-decoding autotest and frame64 generator

A shallow embedding of

* `src/fec/tests/fec_soft_autotest.c` (the helper `fec_test_soft_codec` and the
  22 `autotest_fecsoft_*` entry points), and
* `src/framing/src/framegen64.c` (`framegen64_create`, `framegen64_print`,
  `framegen64_execute`).

C arrays are lists together with a log of the indices written, a write outside
the array fails (`none`), `unsigned int` arithmetic is taken modulo `2^32`, and
functions of the library whose bodies are in other files are parameters.
-/

namespace Liquid

/-! ## Machine integers and arrays -/

/-- Reduction of a natural number to the range of a C `unsigned int`. -/
def u32 (x : Nat) : Nat := x % 4294967296

/-- A C array: its cells and the indices written so far, oldest first. -/
structure Buf (α : Type) where
  data : List α
  log : List Nat

/-- The store `a[i] = v`; it fails when `i` is outside the array. -/
def Buf.write {α : Type} (b : Buf α) (i : Nat) (v : α) : Option (Buf α) :=
  if i < b.data.length then some ⟨b.data.set i v, b.log ++ [i]⟩ else none

/-! ## `fec_soft_autotest.c` -/

/-- The scheme identifiers named in the two source files (the enumeration itself
is declared in `liquid.h`). -/
inductive fec_scheme where
  | LIQUID_FEC_NONE
  | LIQUID_FEC_REP3
  | LIQUID_FEC_REP5
  | LIQUID_FEC_HAMMING74
  | LIQUID_FEC_HAMMING84
  | LIQUID_FEC_HAMMING128
  | LIQUID_FEC_GOLAY2412
  | LIQUID_FEC_CONV_V27
  | LIQUID_FEC_CONV_V29
  | LIQUID_FEC_CONV_V39
  | LIQUID_FEC_CONV_V615
  | LIQUID_FEC_CONV_V27P23
  | LIQUID_FEC_CONV_V27P34
  | LIQUID_FEC_CONV_V27P45
  | LIQUID_FEC_CONV_V27P56
  | LIQUID_FEC_CONV_V27P67
  | LIQUID_FEC_CONV_V27P78
  | LIQUID_FEC_CONV_V29P23
  | LIQUID_FEC_CONV_V29P34
  | LIQUID_FEC_CONV_V29P45
  | LIQUID_FEC_CONV_V29P56
  | LIQUID_FEC_CONV_V29P67
  | LIQUID_FEC_CONV_V29P78
  | LIQUID_FEC_RS_M8
  deriving DecidableEq, Repr

open fec_scheme

/-- The guard at the top of `fec_test_soft_codec`, compiled in only when
`LIBFEC_ENABLED` is zero: true when the function warns and returns. -/
def libfec_guard (libfec_enabled : Bool) (_fs : fec_scheme) : Bool :=
  if !libfec_enabled then
    (_fs == LIQUID_FEC_CONV_V27    ||
     _fs == LIQUID_FEC_CONV_V29    ||
     _fs == LIQUID_FEC_CONV_V39    ||
     _fs == LIQUID_FEC_CONV_V615   ||
     _fs == LIQUID_FEC_CONV_V27P23 ||
     _fs == LIQUID_FEC_CONV_V27P34 ||
     _fs == LIQUID_FEC_CONV_V27P45 ||
     _fs == LIQUID_FEC_CONV_V27P56 ||
     _fs == LIQUID_FEC_CONV_V27P67 ||
     _fs == LIQUID_FEC_CONV_V27P78 ||
     _fs == LIQUID_FEC_CONV_V29P23 ||
     _fs == LIQUID_FEC_CONV_V29P34 ||
     _fs == LIQUID_FEC_CONV_V29P45 ||
     _fs == LIQUID_FEC_CONV_V29P56 ||
     _fs == LIQUID_FEC_CONV_V29P67 ||
     _fs == LIQUID_FEC_CONV_V29P78 ||
     _fs == LIQUID_FEC_RS_M8)
  else false

/-- The expression `(b & mask) ? 255 : 0`. -/
def soft_bit (b mask : Nat) : Nat := if b &&& mask ≠ 0 then 255 else 0

/-- One pass of the body of the loop "convert to soft bits", for index `i`. -/
def soft_convert_step (msg_enc : List Nat) (i : Nat) (msg_soft : Buf Nat) :
    Option (Buf Nat) := do
  let b ← msg_enc[i]?
  let s ← msg_soft.write (u32 (8*i+0)) (soft_bit b 0x80)
  let s ← s.write (u32 (8*i+1)) (soft_bit b 0x40)
  let s ← s.write (u32 (8*i+2)) (soft_bit b 0x20)
  let s ← s.write (u32 (8*i+3)) (soft_bit b 0x10)
  let s ← s.write (u32 (8*i+4)) (soft_bit b 0x08)
  let s ← s.write (u32 (8*i+5)) (soft_bit b 0x04)
  let s ← s.write (u32 (8*i+6)) (soft_bit b 0x02)
  s.write (u32 (8*i+7)) (soft_bit b 0x01)

/-- The loop body run for the listed values of `i`, in order. -/
def soft_convert_loop (msg_enc : List Nat) : List Nat → Buf Nat → Option (Buf Nat)
  | [], s => some s
  | i :: rest, s => (soft_convert_step msg_enc i s).bind (soft_convert_loop msg_enc rest)

/-- The loop `for (i=0; i<n_enc; i++)` that converts to soft bits. -/
def soft_convert (n_enc : Nat) (msg_enc : List Nat) (msg_soft : Buf Nat) :
    Option (Buf Nat) :=
  soft_convert_loop msg_enc (List.range n_enc) msg_soft

/-- The channel step `msg_soft[0] = 255 - msg_soft[0]`. -/
def channel_error (msg_soft : Buf Nat) : Option (Buf Nat) := do
  let v ← msg_soft.data[0]?
  msg_soft.write 0 (255 - v)

/-- The functions of the codec library called by the test; their bodies are in
other files of the library.  Encoding and decoding receive the output
array as it is before the call and return it as it is afterwards. -/
structure FecLib where
  fec_get_enc_msg_length : fec_scheme → Nat → Nat
  fec_encode : fec_scheme → List Nat → Nat → List Nat → List Nat
  fec_decode_soft : fec_scheme → List Nat → Nat → List Nat → List Nat

/-- What a run of `fec_test_soft_codec` did: it warned and returned, or it ran the
codec and compared `msg` with `msg_dec`. -/
inductive TestOutcome where
  | skipped_with_warning
  | checked (same_data : Bool)
  deriving DecidableEq, Repr

/-- The function `fec_test_soft_codec`, called with `_opts = NULL` by every autotest.  The
argument `rand` gives the successive values of `rand()` and `stack` the contents of
the variable-length `unsigned char` arrays before they are assigned; the codec object
is represented by its scheme. -/
def fec_test_soft_codec (libfec_enabled : Bool) (lib : FecLib) (rand stack : Nat → Nat)
    (_fs : fec_scheme) (_n : Nat) : Option TestOutcome :=
  if libfec_guard libfec_enabled _fs then some TestOutcome.skipped_with_warning else do
  let n_enc := lib.fec_get_enc_msg_length _fs _n
  let msg := (List.range _n).map (fun i => rand i &&& 0xff)
  let msg_dec := List.replicate _n 0
  let msg_enc := lib.fec_encode _fs msg _n ((List.range n_enc).map (fun i => stack i % 256))
  let msg_soft ← soft_convert n_enc msg_enc
    ⟨(List.range (u32 (8*n_enc))).map (fun i => stack i % 256), []⟩
  let msg_soft ← channel_error msg_soft
  let msg_dec := lib.fec_decode_soft _fs msg_soft.data _n msg_dec
  some (TestOutcome.checked (decide (msg.take _n = msg_dec.take _n)))

/-- The scheme and length each of the 22 `autotest_fecsoft_*` functions passes to
`fec_test_soft_codec`, in the order of the file. -/
def autotest_fecsoft : List (fec_scheme × Nat) :=
  [ (LIQUID_FEC_REP3, 64), (LIQUID_FEC_REP5, 64),
    (LIQUID_FEC_HAMMING74, 64), (LIQUID_FEC_HAMMING84, 64), (LIQUID_FEC_HAMMING128, 64),
    (LIQUID_FEC_CONV_V27, 64), (LIQUID_FEC_CONV_V29, 64), (LIQUID_FEC_CONV_V39, 64),
    (LIQUID_FEC_CONV_V615, 64),
    (LIQUID_FEC_CONV_V27P23, 64), (LIQUID_FEC_CONV_V27P34, 64), (LIQUID_FEC_CONV_V27P45, 64),
    (LIQUID_FEC_CONV_V27P56, 64), (LIQUID_FEC_CONV_V27P67, 64), (LIQUID_FEC_CONV_V27P78, 64),
    (LIQUID_FEC_CONV_V29P23, 64), (LIQUID_FEC_CONV_V29P34, 64), (LIQUID_FEC_CONV_V29P45, 64),
    (LIQUID_FEC_CONV_V29P56, 64), (LIQUID_FEC_CONV_V29P67, 64), (LIQUID_FEC_CONV_V29P78, 64),
    (LIQUID_FEC_RS_M8, 64) ]

/-- The 17 identifiers listed in the guard of `fec_test_soft_codec`. -/
def libfec_schemes : List fec_scheme :=
  [ LIQUID_FEC_CONV_V27, LIQUID_FEC_CONV_V29, LIQUID_FEC_CONV_V39, LIQUID_FEC_CONV_V615,
    LIQUID_FEC_CONV_V27P23, LIQUID_FEC_CONV_V27P34, LIQUID_FEC_CONV_V27P45,
    LIQUID_FEC_CONV_V27P56, LIQUID_FEC_CONV_V27P67, LIQUID_FEC_CONV_V27P78,
    LIQUID_FEC_CONV_V29P23, LIQUID_FEC_CONV_V29P34, LIQUID_FEC_CONV_V29P45,
    LIQUID_FEC_CONV_V29P56, LIQUID_FEC_CONV_V29P67, LIQUID_FEC_CONV_V29P78,
    LIQUID_FEC_RS_M8 ]

/-! ### The soft-likelihood convention, in the words of the specification -/

/-- Thresholding of one soft byte at the midpoint 128. -/
def hard_bit (s : Nat) : Nat := if 128 ≤ s then 1 else 0

/-- Eight soft bytes thresholded and packed into one byte, the first soft byte in the
most significant bit. -/
def pack8 (s0 s1 s2 s3 s4 s5 s6 s7 : Nat) : Nat :=
  hard_bit s0 * 128 + hard_bit s1 * 64 + hard_bit s2 * 32 + hard_bit s3 * 16 +
  hard_bit s4 * 8 + hard_bit s5 * 4 + hard_bit s6 * 2 + hard_bit s7

/-- Byte `i` of the thresholded and repacked soft buffer. -/
def repack_byte (soft : List Nat) (i : Nat) : Nat :=
  pack8 (soft.getD (8*i) 0) (soft.getD (8*i+1) 0) (soft.getD (8*i+2) 0) (soft.getD (8*i+3) 0)
    (soft.getD (8*i+4) 0) (soft.getD (8*i+5) 0) (soft.getD (8*i+6) 0) (soft.getD (8*i+7) 0)

/-- Thresholding every soft byte at 128 and repacking 8 bits per byte, most significant bit
first, into `n` bytes. -/
def repack (n : Nat) (soft : List Nat) : List Nat :=
  (List.range n).map (repack_byte soft)

/-- Number of 1 bits among the low 8 bits of `x`. -/
def popcount8 (x : Nat) : Nat :=
  ((List.range 8).filter (fun k => x.testBit k)).length

/-- Number of bit positions in which two byte strings differ (Hamming distance). -/
def hamming_distance (a b : List Nat) : Nat :=
  (List.zipWith (fun x y => popcount8 (x ^^^ y)) a b).sum

/-- The soft value the convention assigns to bit `7-k` of byte `b`. -/
def expected_soft (b k : Nat) : Nat := if b.testBit (7 - k) then 255 else 0

/-! ## `framegen64.c` -/

/-- The error-detection scheme named in `framegen64_create`. -/
inductive crc_scheme where
  | LIQUID_CRC_24
  deriving DecidableEq, Repr

/-- The modulation scheme named in `framegen64_create`. -/
inductive modulation_scheme where
  | LIQUID_MODEM_QPSK
  deriving DecidableEq, Repr

open crc_scheme modulation_scheme

/-- A C array of fixed size `n`, as the arrays inside `struct framegen64_s`. -/
structure Arr (α : Type) (n : Nat) where
  data : List α
  size_eq : data.length = n

/-- The store `a[i] = v` into a fixed-size array. -/
def Arr.set {α : Type} {n : Nat} (a : Arr α n) (i : Nat) (v : α) : Arr α n :=
  ⟨a.data.set i v, by rw [List.length_set]; exact a.size_eq⟩

/-- Copy of the elements of `src`, one after the other, to `dst[off]`, `dst[off+1]`, ... -/
def Arr.blit {α : Type} {n : Nat} : Arr α n → Nat → List α → Arr α n
  | dst, _, [] => dst
  | dst, off, x :: xs => Arr.blit (dst.set off x) (off + 1) xs

/-- The call `memmove(&dst[off], src, cnt)` for a source outside `dst`; it fails when
the source has fewer than `cnt` elements or the destination range leaves the array. -/
def memmove {α : Type} {n : Nat} (dst : Arr α n) (off : Nat) (src : List α) (cnt : Nat) :
    Option (Arr α n) :=
  if cnt ≤ src.length ∧ off + cnt ≤ n then some (dst.blit off (src.take cnt)) else none

/-- The objects and functions of the library used by `framegen64.c` whose bodies are
in other files: samples (`float complex`), the m-sequence generator, the packet
modem, the pilot generator and the interpolating filter, and the contents of freshly
allocated memory.  The interpolator is created with `k = 2` samples per symbol, so
one call of `firinterp_crcf_execute` produces two output samples. -/
structure Collab where
  Sample : Type
  Interp : Type
  Modem : Type
  Pilot : Type
  zero : Sample
  pn_symbol : Bool → Bool → Sample
  msequence_advance : Nat → Bool
  malloc_dec : Arr Nat 150
  malloc_sym : Arr Sample 600
  malloc_tx : Arr Sample 630
  qpacketmodem_create : Modem
  qpacketmodem_configure :
    Modem → Nat → crc_scheme → fec_scheme → fec_scheme → modulation_scheme → Modem
  qpacketmodem_get_frame_len : Modem → Nat
  qpacketmodem_encode : Modem → Arr Nat 150 → Arr Sample 600 → Modem × Arr Sample 600
  qpilotgen_create : Nat → Nat → Pilot
  qpilotgen_get_frame_len : Pilot → Nat
  qpilotgen_execute : Pilot → Arr Sample 600 → Arr Sample 630 → Pilot × Arr Sample 630
  firinterp_crcf_create_rnyquist : Nat → Nat → ℚ → Interp
  firinterp_crcf_reset : Interp → Interp
  firinterp_crcf_execute : Interp → Sample → Interp × Sample × Sample

/-- The record `struct framegen64_s`. -/
structure framegen64_s (ext : Collab) where
  enc : ext.Modem
  pilotgen : ext.Pilot
  pn_sequence : Arr ext.Sample 64
  payload_dec : Arr Nat 150
  payload_sym : Arr ext.Sample 600
  payload_tx : Arr ext.Sample 630
  m : Nat
  beta : ℚ
  interp : ext.Interp

/-- The function `framegen64_create`; it fails when one of its two assertions fails.  The value
`msequence_advance k` is the result of the call number `k` of `msequence_advance` on the
generator `msequence_create(7, 0x0089, 1)`, the call for the real part taken first. -/
def framegen64_create (ext : Collab) : Option (framegen64_s ext) :=
  let m := 7
  let beta : ℚ := 3 / 10
  let pn_sequence : Arr ext.Sample 64 :=
    ⟨(List.range 64).map (fun i =>
        ext.pn_symbol (ext.msequence_advance (2*i)) (ext.msequence_advance (2*i+1))),
     by simp⟩
  let enc := ext.qpacketmodem_configure ext.qpacketmodem_create 72
    LIQUID_CRC_24 LIQUID_FEC_NONE LIQUID_FEC_GOLAY2412 LIQUID_MODEM_QPSK
  if ext.qpacketmodem_get_frame_len enc ≠ 600 then none else
  let pilotgen := ext.qpilotgen_create 600 21
  if ext.qpilotgen_get_frame_len pilotgen ≠ 630 then none else
  let interp := ext.firinterp_crcf_create_rnyquist 2 m beta
  some { enc := enc, pilotgen := pilotgen, pn_sequence := pn_sequence,
         payload_dec := ext.malloc_dec, payload_sym := ext.malloc_sym,
         payload_tx := ext.malloc_tx, m := m, beta := beta, interp := interp }

/-- The numbers printed by `framegen64_print`, one field per line of output. -/
structure framegen64_report where
  ramp_up_symbols : Nat
  pn_symbols : Nat
  ramp_down_symbols : Nat
  payload_len_uncoded : Nat
  payload_len_coded : Nat
  payload_symbols : Nat
  pilot_symbols : Nat
  total_symbols : Nat
  deriving DecidableEq, Repr

/-- The function `framegen64_print`, reduced to the integers it prints.  The constant
`LIQUID_FRAME64_LEN` is defined in `liquid.h`. -/
def framegen64_print {ext : Collab} (LIQUID_FRAME64_LEN : Nat) (_q : framegen64_s ext) :
    framegen64_report :=
  { ramp_up_symbols := _q.m
    pn_symbols := 64
    ramp_down_symbols := _q.m
    payload_len_uncoded := 64
    payload_len_coded := 150
    payload_symbols := 600
    pilot_symbols := 30
    total_symbols := LIQUID_FRAME64_LEN / 2 }

/-- The first step of `framegen64_execute`: "concatenate header and payload". -/
def framegen64_concat {ext : Collab} (_q : framegen64_s ext) (_header _payload : List Nat) :
    Option (framegen64_s ext) := do
  let d ← memmove _q.payload_dec 0 _header 8
  let d ← memmove d 8 _payload 64
  some { _q with payload_dec := d }

/-- The local state of the three output loops of `framegen64_execute`: the
interpolator, the output array `_frame`, the counter `n`, and a record of the
interpolator calls made (input symbol and value of `n` at the call). -/
structure ExecState (ext : Collab) where
  interp : ext.Interp
  frame : Buf ext.Sample
  n : Nat
  calls : List (ext.Sample × Nat)

/-- The two statements `firinterp_crcf_execute(_q->interp, x, &_frame[n]); n+=2;`. -/
def interp_call (ext : Collab) (x : ext.Sample) (s : ExecState ext) : Option (ExecState ext) := do
  let r := ext.firinterp_crcf_execute s.interp x
  let f ← s.frame.write s.n r.2.1
  let f ← f.write (s.n + 1) r.2.2
  some { interp := r.1, frame := f, n := u32 (s.n + 2), calls := s.calls ++ [(x, s.n)] }

/-- A loop `for (i ...) { firinterp_crcf_execute(..., src[i], &_frame[n]); n+=2; }` run for
the listed values of `i`. -/
def interp_loop (ext : Collab) (src : Nat → Option ext.Sample) :
    List Nat → ExecState ext → Option (ExecState ext)
  | [], s => some s
  | i :: rest, s => ((src i).bind (fun x => interp_call ext x s)).bind (interp_loop ext src rest)

/-- What `framegen64_execute` leaves behind: the generator, the output array, the final
counter `n` and the record of interpolator calls. -/
structure ExecResult (ext : Collab) where
  q : framegen64_s ext
  frame : Buf ext.Sample
  n : Nat
  calls : List (ext.Sample × Nat)

/-- The function `framegen64_execute`; it fails on an access outside an array and when the closing
assertion `n == LIQUID_FRAME64_LEN` fails. -/
def framegen64_execute (ext : Collab) (LIQUID_FRAME64_LEN : Nat) (_q : framegen64_s ext)
    (_header _payload : List Nat) (_frame : List ext.Sample) : Option (ExecResult ext) := do
  let q ← framegen64_concat _q _header _payload
  let e := ext.qpacketmodem_encode q.enc q.payload_dec q.payload_sym
  let p := ext.qpilotgen_execute q.pilotgen e.2 q.payload_tx
  let s : ExecState ext :=
    { interp := ext.firinterp_crcf_reset q.interp, frame := ⟨_frame, []⟩, n := 0, calls := [] }
  let s ← interp_loop ext (fun i => q.pn_sequence.data[i]?) (List.range 64) s
  let s ← interp_loop ext (fun i => p.2.data[i]?) (List.range 630) s
  let s ← interp_loop ext (fun _ => some ext.zero) (List.range (u32 (2 * q.m))) s
  if s.n = LIQUID_FRAME64_LEN then
    some { q := { q with enc := e.1, pilotgen := p.1, payload_sym := e.2, payload_tx := p.2,
                         interp := s.interp },
           frame := s.frame, n := s.n, calls := s.calls }
  else none

/-- The interpolator fed the symbols `xs` one after the other from state `it`: the state
it ends in and the output samples in the order produced, two per symbol. -/
def interp_trace (ext : Collab) : ext.Interp → List ext.Sample → ext.Interp × List ext.Sample
  | it, [] => (it, [])
  | it, x :: xs =>
    ((interp_trace ext (ext.firinterp_crcf_execute it x).1 xs).1,
     (ext.firinterp_crcf_execute it x).2.1 :: (ext.firinterp_crcf_execute it x).2.2 ::
       (interp_trace ext (ext.firinterp_crcf_execute it x).1 xs).2)

/-- The three output loops of `framegen64_execute`, from the state in which they start. -/
def framegen64_loops (ext : Collab) (q : framegen64_s ext) (tx : Arr ext.Sample 630)
    (_frame : List ext.Sample) : Option (ExecState ext) :=
  ((interp_loop ext (fun i => q.pn_sequence.data[i]?) (List.range 64)
      { interp := ext.firinterp_crcf_reset q.interp, frame := ⟨_frame, []⟩, n := 0,
        calls := [] }).bind
    (interp_loop ext (fun i => tx.data[i]?) (List.range 630))).bind
    (interp_loop ext (fun _ => some ext.zero) (List.range (u32 (2 * q.m))))

/-- State of `msg_soft` after the first `k` passes of the conversion loop started on
contents `d0`: indices `0 .. 8k-1` written once each, in order, with the soft value of
the corresponding bit, and all other cells as they were. -/
def SoftFilled (msg_enc d0 : List Nat) (k : Nat) (s : Buf Nat) : Prop :=
  s.log = List.range (8*k) ∧ s.data.length = d0.length ∧
  ∀ j, s.data[j]? =
    if j < 8*k then (msg_enc[j/8]?).map (fun b => soft_bit b (0x80 >>> (j % 8))) else d0[j]?

/-! ### A concrete environment

The library functions are parameters of the embedding.  The following instance is the
concrete input at which the statements below are instantiated. -/

/-- A sample environment for `framegen64.c`.  Samples are pairs of integers.  The packet
modem and the pilot generator are the lengths they were given, and report the frame
lengths 600 and 630 that the two assertions of `framegen64_create` require.  The filter
keeps the last input symbol as its state and puts out the new symbol followed by the
previous one. -/
def sample_collab : Collab where
  Sample := Int × Int
  Interp := Int × Int
  Modem := Nat
  Pilot := Nat × Nat
  zero := (0, 0)
  pn_symbol := fun a b => (if a then 1 else -1, if b then 1 else -1)
  msequence_advance := fun k => k % 3 == 0
  malloc_dec := ⟨List.replicate 150 0, List.length_replicate _ _⟩
  malloc_sym := ⟨List.replicate 600 (0, 0), List.length_replicate _ _⟩
  malloc_tx := ⟨List.replicate 630 (0, 0), List.length_replicate _ _⟩
  qpacketmodem_create := 0
  qpacketmodem_configure := fun _ n _ _ _ _ => n
  qpacketmodem_get_frame_len := fun _ => 600
  qpacketmodem_encode := fun q _ sym => (q, sym)
  qpilotgen_create := fun n sp => (n, sp)
  qpilotgen_get_frame_len := fun _ => 630
  qpilotgen_execute := fun g _ tx => (g, tx)
  firinterp_crcf_create_rnyquist := fun _ _ _ => (0, 0)
  firinterp_crcf_reset := fun _ => (0, 0)
  firinterp_crcf_execute := fun prev x => (x, x, prev)

/-! ## Arrays with a write log -/

theorem Buf.write_of_lt {α : Type} (b : Buf α) (i : Nat) (v : α) (h : i < b.data.length) :
    b.write i v = some ⟨b.data.set i v, b.log ++ [i]⟩ := by
  simp [Buf.write, h]

theorem u32_of_lt {x : Nat} (h : x < 4294967296) : u32 x = x := Nat.mod_eq_of_lt h

/-! ## The conversion to soft bits -/

theorem soft_convert_loop_append (msg_enc : List Nat) (l₁ l₂ : List Nat) (s : Buf Nat) :
    soft_convert_loop msg_enc (l₁ ++ l₂) s =
      (soft_convert_loop msg_enc l₁ s).bind (soft_convert_loop msg_enc l₂) := by
  induction l₁ generalizing s with
  | nil => simp [soft_convert_loop]
  | cons i rest ih =>
    simp only [List.cons_append, soft_convert_loop]
    cases soft_convert_step msg_enc i s with
    | none => simp
    | some s1 => simpa using ih s1

theorem soft_convert_step_eq (msg_enc : List Nat) (i b : Nat) (s : Buf Nat)
    (hb : msg_enc[i]? = some b) (hlen : 8 * i + 8 ≤ s.data.length)
    (hrange : 8 * i + 8 ≤ 4294967296) :
    soft_convert_step msg_enc i s =
      some ⟨((((((((s.data.set (8*i) (soft_bit b 0x80)).set (8*i+1) (soft_bit b 0x40)).set
          (8*i+2) (soft_bit b 0x20)).set (8*i+3) (soft_bit b 0x10)).set
          (8*i+4) (soft_bit b 0x08)).set (8*i+5) (soft_bit b 0x04)).set
          (8*i+6) (soft_bit b 0x02)).set (8*i+7) (soft_bit b 0x01)),
        s.log ++ [8*i, 8*i+1, 8*i+2, 8*i+3, 8*i+4, 8*i+5, 8*i+6, 8*i+7]⟩ := by
  have h0 : u32 (8*i+0) = 8*i := u32_of_lt (by omega)
  have h1 : u32 (8*i+1) = 8*i+1 := u32_of_lt (by omega)
  have h2 : u32 (8*i+2) = 8*i+2 := u32_of_lt (by omega)
  have h3 : u32 (8*i+3) = 8*i+3 := u32_of_lt (by omega)
  have h4 : u32 (8*i+4) = 8*i+4 := u32_of_lt (by omega)
  have h5 : u32 (8*i+5) = 8*i+5 := u32_of_lt (by omega)
  have h6 : u32 (8*i+6) = 8*i+6 := u32_of_lt (by omega)
  have h7 : u32 (8*i+7) = 8*i+7 := u32_of_lt (by omega)
  simp only [soft_convert_step, hb, h0, h1, h2, h3, h4, h5, h6, h7, Option.bind_eq_bind,
    Option.some_bind]
  rw [Buf.write_of_lt _ _ _ (by omega)]
  simp only [Option.some_bind]
  rw [Buf.write_of_lt _ _ _ (by simp; omega)]
  simp only [Option.some_bind]
  rw [Buf.write_of_lt _ _ _ (by simp; omega)]
  simp only [Option.some_bind]
  rw [Buf.write_of_lt _ _ _ (by simp; omega)]
  simp only [Option.some_bind]
  rw [Buf.write_of_lt _ _ _ (by simp; omega)]
  simp only [Option.some_bind]
  rw [Buf.write_of_lt _ _ _ (by simp; omega)]
  simp only [Option.some_bind]
  rw [Buf.write_of_lt _ _ _ (by simp; omega)]
  simp only [Option.some_bind]
  rw [Buf.write_of_lt _ _ _ (by simp; omega)]
  simp


theorem range_eight_succ (k : Nat) :
    List.range (8*(k+1)) =
      List.range (8*k) ++ [8*k, 8*k+1, 8*k+2, 8*k+3, 8*k+4, 8*k+5, 8*k+6, 8*k+7] := by
  have e : 8*(k+1) = 8*k+1+1+1+1+1+1+1+1 := by omega
  rw [e]
  simp only [List.range_succ, List.append_assoc, List.singleton_append, List.cons_append,
    List.nil_append]

theorem soft_convert_step_filled (msg_enc d0 : List Nat) (k : Nat) (s : Buf Nat)
    (hs : SoftFilled msg_enc d0 k s) (hk : k < msg_enc.length)
    (hlen : 8 * k + 8 ≤ d0.length) (hrange : 8 * k + 8 ≤ 4294967296) :
    ∃ s1, soft_convert_step msg_enc k s = some s1 ∧ SoftFilled msg_enc d0 (k+1) s1 := by
  obtain ⟨hlog, hl, hdata⟩ := hs
  have hb : msg_enc[k]? = some msg_enc[k] := List.getElem?_eq_getElem hk
  refine ⟨_, soft_convert_step_eq msg_enc k _ s hb (by omega) hrange, ?_, ?_, ?_⟩
  · simp only [hlog, range_eight_succ]
  · simp [hl]
  · intro j
    have hcase : j < 8*k ∨ j = 8*k ∨ j = 8*k+1 ∨ j = 8*k+2 ∨ j = 8*k+3 ∨ j = 8*k+4 ∨
        j = 8*k+5 ∨ j = 8*k+6 ∨ j = 8*k+7 ∨ 8*k+8 ≤ j := by omega
    rcases hcase with h | h | h | h | h | h | h | h | h | h
    · iterate 8 rw [List.getElem?_set_ne (by omega)]
      rw [hdata j, if_pos h, if_pos (by omega)]
    · subst h
      simp only [List.getElem?_set, List.length_set]
      have e1 : (8*k)/8 = k := by omega
      have e2 : (8*k)%8 = 0 := by omega
      have hlt : 8*k < s.data.length := by omega
      have hsh : (128 : Nat) >>> 0 = 128 := by decide
      simp [e1, e2, hb, hlt, hsh]
    · subst h
      simp only [List.getElem?_set, List.length_set]
      have e1 : (8*k+1)/8 = k := by omega
      have e2 : (8*k+1)%8 = 1 := by omega
      have hlt : 8*k+1 < s.data.length := by omega
      have hsh : (128 : Nat) >>> 1 = 64 := by decide
      simp [e1, e2, hb, hlt, hsh]
      rw [if_pos (by omega)]
    · subst h
      simp only [List.getElem?_set, List.length_set]
      have e1 : (8*k+2)/8 = k := by omega
      have e2 : (8*k+2)%8 = 2 := by omega
      have hlt : 8*k+2 < s.data.length := by omega
      have hsh : (128 : Nat) >>> 2 = 32 := by decide
      simp [e1, e2, hb, hlt, hsh]
      rw [if_pos (by omega)]
    · subst h
      simp only [List.getElem?_set, List.length_set]
      have e1 : (8*k+3)/8 = k := by omega
      have e2 : (8*k+3)%8 = 3 := by omega
      have hlt : 8*k+3 < s.data.length := by omega
      have hsh : (128 : Nat) >>> 3 = 16 := by decide
      simp [e1, e2, hb, hlt, hsh]
      rw [if_pos (by omega)]
    · subst h
      simp only [List.getElem?_set, List.length_set]
      have e1 : (8*k+4)/8 = k := by omega
      have e2 : (8*k+4)%8 = 4 := by omega
      have hlt : 8*k+4 < s.data.length := by omega
      have hsh : (128 : Nat) >>> 4 = 8 := by decide
      simp [e1, e2, hb, hlt, hsh]
      rw [if_pos (by omega)]
    · subst h
      simp only [List.getElem?_set, List.length_set]
      have e1 : (8*k+5)/8 = k := by omega
      have e2 : (8*k+5)%8 = 5 := by omega
      have hlt : 8*k+5 < s.data.length := by omega
      have hsh : (128 : Nat) >>> 5 = 4 := by decide
      simp [e1, e2, hb, hlt, hsh]
      rw [if_pos (by omega)]
    · subst h
      simp only [List.getElem?_set, List.length_set]
      have e1 : (8*k+6)/8 = k := by omega
      have e2 : (8*k+6)%8 = 6 := by omega
      have hlt : 8*k+6 < s.data.length := by omega
      have hsh : (128 : Nat) >>> 6 = 2 := by decide
      simp [e1, e2, hb, hlt, hsh]
      rw [if_pos (by omega)]
    · subst h
      simp only [List.getElem?_set, List.length_set]
      have e1 : (8*k+7)/8 = k := by omega
      have e2 : (8*k+7)%8 = 7 := by omega
      have hlt : 8*k+7 < s.data.length := by omega
      have hsh : (128 : Nat) >>> 7 = 1 := by decide
      simp [e1, e2, hb, hlt, hsh]
      rw [if_pos (by omega)]
    · iterate 8 rw [List.getElem?_set_ne (by omega)]
      rw [hdata j, if_neg (by omega), if_neg (by omega)]


theorem soft_convert_filled (msg_enc d0 : List Nat) (k : Nat) (hk : k ≤ msg_enc.length)
    (hlen : 8 * k ≤ d0.length) (hrange : 8 * k ≤ 4294967296) :
    ∃ s, soft_convert k msg_enc ⟨d0, []⟩ = some s ∧ SoftFilled msg_enc d0 k s := by
  induction k with
  | zero =>
    refine ⟨⟨d0, []⟩, by simp [soft_convert, soft_convert_loop], ?_, rfl, ?_⟩
    · simp
    · intro j; simp
  | succ k ih =>
    obtain ⟨s, hrun, hs⟩ := ih (by omega) (by omega) (by omega)
    obtain ⟨s1, hstep, hs1⟩ :=
      soft_convert_step_filled msg_enc d0 k s hs (by omega) (by omega) (by omega)
    refine ⟨s1, ?_, hs1⟩
    unfold soft_convert at hrun ⊢
    rw [List.range_succ, soft_convert_loop_append, hrun]
    simp [soft_convert_loop, hstep]

set_option maxRecDepth 100000 in
theorem soft_bit_eq_expected (b k : Nat) (hb : b < 256) (hk : k < 8) :
    soft_bit b (0x80 >>> k) = expected_soft b k := by
  have h : ∀ b, b < 256 → ∀ k, k < 8 → soft_bit b (0x80 >>> k) = expected_soft b k := by
    decide
  exact h b hb k hk

set_option maxRecDepth 100000 in
theorem pack8_soft_bit (b : Nat) (hb : b < 256) :
    pack8 (soft_bit b 0x80) (soft_bit b 0x40) (soft_bit b 0x20) (soft_bit b 0x10)
      (soft_bit b 0x08) (soft_bit b 0x04) (soft_bit b 0x02) (soft_bit b 0x01) = b := by
  have h : ∀ b, b < 256 →
      pack8 (soft_bit b 0x80) (soft_bit b 0x40) (soft_bit b 0x20) (soft_bit b 0x10)
        (soft_bit b 0x08) (soft_bit b 0x04) (soft_bit b 0x02) (soft_bit b 0x01) = b := by
    decide
  exact h b hb

set_option maxRecDepth 100000 in
theorem pack8_soft_bit_flipped (b : Nat) (hb : b < 256) :
    popcount8 (pack8 (255 - soft_bit b 0x80) (soft_bit b 0x40) (soft_bit b 0x20)
      (soft_bit b 0x10) (soft_bit b 0x08) (soft_bit b 0x04) (soft_bit b 0x02)
      (soft_bit b 0x01) ^^^ b) = 1 := by
  have h : ∀ b, b < 256 →
      popcount8 (pack8 (255 - soft_bit b 0x80) (soft_bit b 0x40) (soft_bit b 0x20)
        (soft_bit b 0x10) (soft_bit b 0x08) (soft_bit b 0x04) (soft_bit b 0x02)
        (soft_bit b 0x01) ^^^ b) = 1 := by
    decide
  exact h b hb


theorem SoftFilled.getD_eq {msg_enc d0 : List Nat} {n : Nat} {s : Buf Nat}
    (hs : SoftFilled msg_enc d0 n s) (i c : Nat) (hi : i < n) (hm : i < msg_enc.length)
    (hc : c < 8) : s.data.getD (8*i+c) 0 = soft_bit msg_enc[i] (0x80 >>> c) := by
  have h := hs.2.2 (8*i+c)
  have e1 : (8*i+c)/8 = i := by omega
  have e2 : (8*i+c)%8 = c := by omega
  rw [if_pos (by omega), e1, e2, List.getElem?_eq_getElem hm] at h
  rw [List.getD_eq_getElem?_getD, h]
  rfl

theorem SoftFilled.repack_byte_eq {msg_enc d0 : List Nat} {n : Nat} {s : Buf Nat}
    (hs : SoftFilled msg_enc d0 n s) (i : Nat) (hi : i < n) (hm : i < msg_enc.length) :
    repack_byte s.data i =
      pack8 (soft_bit msg_enc[i] 0x80) (soft_bit msg_enc[i] 0x40) (soft_bit msg_enc[i] 0x20)
        (soft_bit msg_enc[i] 0x10) (soft_bit msg_enc[i] 0x08) (soft_bit msg_enc[i] 0x04)
        (soft_bit msg_enc[i] 0x02) (soft_bit msg_enc[i] 0x01) := by
  have h0 := hs.getD_eq i 0 hi hm (by omega)
  have h1 := hs.getD_eq i 1 hi hm (by omega)
  have h2 := hs.getD_eq i 2 hi hm (by omega)
  have h3 := hs.getD_eq i 3 hi hm (by omega)
  have h4 := hs.getD_eq i 4 hi hm (by omega)
  have h5 := hs.getD_eq i 5 hi hm (by omega)
  have h6 := hs.getD_eq i 6 hi hm (by omega)
  have h7 := hs.getD_eq i 7 hi hm (by omega)
  rw [Nat.add_zero] at h0
  unfold repack_byte
  rw [h0, h1, h2, h3, h4, h5, h6, h7]
  rfl

theorem soft_bit_cases (b mask : Nat) : soft_bit b mask = 0 ∨ soft_bit b mask = 255 := by
  unfold soft_bit
  split
  · exact Or.inr rfl
  · exact Or.inl rfl

/-- C3. For an encoded buffer `msg_enc` of `n_enc` bytes and an array `msg_soft` of `8*n_enc`
cells (so the size expression `8*n_enc` does not wrap) with any initial contents,
the conversion loop of `fec_test_soft_codec` runs to its end, writes the indices
`0, 1, ..., 8*n_enc-1` once each, leaves `255` at `8*i+k` when bit `7-k` of `msg_enc[i]`
is set and `0` otherwise, so that every soft byte is `0` or `255`, and thresholding at
128 and repacking most significant bit first gives back `msg_enc`. -/
theorem soft_convert_convention (n_enc : Nat) (msg_enc d0 : List Nat)
    (henc : msg_enc.length = n_enc) (hbytes : ∀ b ∈ msg_enc, b < 256)
    (hsoft : d0.length = 8 * n_enc) (hwrap : u32 (8 * n_enc) = 8 * n_enc) :
    ∃ s, soft_convert n_enc msg_enc ⟨d0, []⟩ = some s ∧
      s.log = List.range (8 * n_enc) ∧
      s.data.length = 8 * n_enc ∧
      (∀ i k, i < n_enc → k < 8 →
        s.data[8*i+k]? = (msg_enc[i]?).map (fun b => if b.testBit (7 - k) then 255 else 0)) ∧
      (∀ v ∈ s.data, v = 0 ∨ v = 255) ∧
      repack n_enc s.data = msg_enc := by
  have hlt : 8 * n_enc < 4294967296 := by
    rw [← hwrap]; exact Nat.mod_lt _ (by decide)
  obtain ⟨s, hrun, hs⟩ :=
    soft_convert_filled msg_enc d0 n_enc (by omega) (by omega) (by omega)
  refine ⟨s, hrun, hs.1, by rw [hs.2.1, hsoft], ?_, ?_, ?_⟩
  · intro i k hi hk
    have h := hs.2.2 (8*i+k)
    have e1 : (8*i+k)/8 = i := by omega
    have e2 : (8*i+k)%8 = k := by omega
    have hm : i < msg_enc.length := by omega
    rw [if_pos (by omega), e1, e2, List.getElem?_eq_getElem hm] at h
    rw [h, List.getElem?_eq_getElem hm]
    have hb := hbytes msg_enc[i] (List.getElem_mem _)
    simp only [Option.map_some']
    rw [soft_bit_eq_expected _ _ hb hk]
    rfl
  · intro v hv
    obtain ⟨j, hj, rfl⟩ := List.getElem_of_mem hv
    have h := hs.2.2 j
    have hj2 : j < 8 * n_enc := by rw [hs.2.1, hsoft] at hj; exact hj
    have hm : j / 8 < msg_enc.length := by omega
    rw [if_pos hj2, List.getElem?_eq_getElem hj, List.getElem?_eq_getElem hm] at h
    simp only [Option.map_some', Option.some.injEq] at h
    rw [h]
    exact soft_bit_cases _ _
  · apply List.ext_getElem
    · simp [repack, henc]
    · intro i h1 h2
      simp only [repack, List.getElem_map, List.getElem_range]
      rw [hs.repack_byte_eq i (by omega) h2]
      exact pack8_soft_bit _ (hbytes _ (List.getElem_mem _))


theorem popcount8_xor_self (x : Nat) : popcount8 (x ^^^ x) = 0 := by
  rw [Nat.xor_self]; decide

theorem hamming_distance_self (l : List Nat) : hamming_distance l l = 0 := by
  induction l with
  | nil => rfl
  | cons x xs ih =>
    have p0 : popcount8 0 = 0 := by decide
    unfold hamming_distance at ih ⊢
    simp [p0, ih]

theorem hamming_distance_cons (x y : Nat) (l : List Nat) :
    hamming_distance (x :: l) (y :: l) = popcount8 (x ^^^ y) := by
  have h := hamming_distance_self l
  unfold hamming_distance at h ⊢
  rw [List.zipWith_cons_cons, List.sum_cons, h, Nat.add_zero]

theorem getD_set_zero_ne (l : List Nat) (x j : Nat) (hj : j ≠ 0) :
    (l.set 0 x).getD j 0 = l.getD j 0 := by
  rw [List.getD_eq_getElem?_getD, List.getD_eq_getElem?_getD,
    List.getElem?_set_ne (Ne.symm hj)]

theorem repack_byte_set_zero_ne (l : List Nat) (x i : Nat) (hi : i ≠ 0) :
    repack_byte (l.set 0 x) i = repack_byte l i := by
  unfold repack_byte
  iterate 8 rw [getD_set_zero_ne l x _ (by omega)]

theorem repack_byte_set_zero (l : List Nat) (x : Nat) (hl : 0 < l.length) :
    repack_byte (l.set 0 x) 0 =
      pack8 x (l.getD 1 0) (l.getD 2 0) (l.getD 3 0) (l.getD 4 0) (l.getD 5 0) (l.getD 6 0)
        (l.getD 7 0) := by
  unfold repack_byte
  rw [getD_set_zero_ne l x (8*0+1) (by omega), getD_set_zero_ne l x (8*0+2) (by omega),
    getD_set_zero_ne l x (8*0+3) (by omega), getD_set_zero_ne l x (8*0+4) (by omega),
    getD_set_zero_ne l x (8*0+5) (by omega), getD_set_zero_ne l x (8*0+6) (by omega),
    getD_set_zero_ne l x (8*0+7) (by omega)]
  have : (l.set 0 x).getD (8*0) 0 = x := by
    rw [List.getD_eq_getElem?_getD]
    simp [List.getElem?_set, hl]
  rw [this]

/-- C6. After the conversion loop, the channel step `msg_soft[0] = 255 - msg_soft[0]` can be
carried out exactly when `n_enc ≥ 1` (index 0 is inside `msg_soft` exactly then).  When
`n_enc ≥ 1` the new `msg_soft[0]` is still `0` or `255` and is the opposite of the most
significant bit of `msg_enc[0]`, every other cell is unchanged, and the buffer
thresholded at 128 and repacked is at Hamming distance 1 from `msg_enc`. -/
theorem channel_error_single_bit (n_enc : Nat) (msg_enc d0 : List Nat)
    (henc : msg_enc.length = n_enc) (hbytes : ∀ b ∈ msg_enc, b < 256)
    (hsoft : d0.length = 8 * n_enc) (hwrap : u32 (8 * n_enc) = 8 * n_enc) :
    ∃ s, soft_convert n_enc msg_enc ⟨d0, []⟩ = some s ∧
      (0 < s.data.length ↔ 1 ≤ n_enc) ∧
      ((channel_error s).isSome = true ↔ 1 ≤ n_enc) ∧
      (1 ≤ n_enc → ∃ s1, channel_error s = some s1 ∧
        (s1.data[0]? = some 0 ∨ s1.data[0]? = some 255) ∧
        s1.data[0]? = (msg_enc[0]?).map (fun b => if b.testBit 7 then 0 else 255) ∧
        (∀ j, j ≠ 0 → s1.data[j]? = s.data[j]?) ∧
        s1.data.length = s.data.length ∧
        hamming_distance (repack n_enc s1.data) msg_enc = 1) := by
  have hlt : 8 * n_enc < 4294967296 := by
    rw [← hwrap]; exact Nat.mod_lt _ (by decide)
  obtain ⟨s, hrun, hs⟩ :=
    soft_convert_filled msg_enc d0 n_enc (by omega) (by omega) (by omega)
  have hlen : s.data.length = 8 * n_enc := by rw [hs.2.1, hsoft]
  refine ⟨s, hrun, by omega, ?_, ?_⟩
  · by_cases hn : 1 ≤ n_enc
    · have h0 : 0 < s.data.length := by omega
      simp [channel_error, Buf.write, List.getElem?_eq_getElem h0, h0, hn]
    · have h0 : s.data.length ≤ 0 := by omega
      simp [channel_error, List.getElem?_eq_none h0, hn]
  · intro hn
    have h0 : 0 < s.data.length := by omega
    have hm : 0 < msg_enc.length := by omega
    have hb := hbytes msg_enc[0] (List.getElem_mem _)
    have hv : s.data[0]? = some (soft_bit msg_enc[0] 0x80) := by
      have h := hs.2.2 0
      rw [if_pos (by omega), List.getElem?_eq_getElem hm] at h
      exact h
    have hrun1 : channel_error s =
        some ⟨s.data.set 0 (255 - soft_bit msg_enc[0] 0x80), s.log ++ [0]⟩ := by
      simp [channel_error, hv, Buf.write, h0]
    refine ⟨_, hrun1, ?_, ?_, ?_, ?_, ?_⟩
    · simp only [List.getElem?_set, if_pos, h0]
      rcases soft_bit_cases msg_enc[0] 0x80 with h | h <;> simp [h]
    · simp only [List.getElem?_set, if_pos, h0, List.getElem?_eq_getElem hm, Option.map_some']
      have := soft_bit_eq_expected msg_enc[0] 0 hb (by omega)
      simp only [Nat.shiftRight_zero] at this
      rw [this]
      unfold expected_soft
      simp only [Nat.sub_zero, Option.some.injEq]
      split <;> rfl
    · intro j hj
      exact List.getElem?_set_ne (Ne.symm hj)
    · simp
    · obtain ⟨b0, tl, rfl⟩ : ∃ b0 tl, msg_enc = b0 :: tl := by
        cases msg_enc with
        | nil => simp at hm
        | cons b0 tl => exact ⟨b0, tl, rfl⟩
      have hrep : repack n_enc (s.data.set 0 (255 - soft_bit b0 0x80)) =
          pack8 (255 - soft_bit b0 0x80) (soft_bit b0 0x40) (soft_bit b0 0x20)
            (soft_bit b0 0x10) (soft_bit b0 0x08) (soft_bit b0 0x04) (soft_bit b0 0x02)
            (soft_bit b0 0x01) :: tl := by
        apply List.ext_getElem
        · simp [repack, ← henc]
        · intro i h1 h2
          simp only [repack, List.getElem_map, List.getElem_range]
          cases i with
          | zero =>
            rw [repack_byte_set_zero _ _ h0]
            have g1 := hs.getD_eq 0 1 (by omega) hm (by omega)
            have g2 := hs.getD_eq 0 2 (by omega) hm (by omega)
            have g3 := hs.getD_eq 0 3 (by omega) hm (by omega)
            have g4 := hs.getD_eq 0 4 (by omega) hm (by omega)
            have g5 := hs.getD_eq 0 5 (by omega) hm (by omega)
            have g6 := hs.getD_eq 0 6 (by omega) hm (by omega)
            have g7 := hs.getD_eq 0 7 (by omega) hm (by omega)
            simp only [Nat.mul_zero, Nat.zero_add] at g1 g2 g3 g4 g5 g6 g7
            rw [g1, g2, g3, g4, g5, g6, g7]
            rfl
          | succ i =>
            rw [repack_byte_set_zero_ne _ _ _ (by omega)]
            have hi : i + 1 < (b0 :: tl).length := by simpa using h2
            rw [hs.repack_byte_eq (i+1) (by omega) hi]
            exact pack8_soft_bit _ (hbytes _ (List.getElem_mem _))
      simp only [List.getElem_cons_zero]
      rw [hrep, hamming_distance_cons]
      exact pack8_soft_bit_flipped b0 (hbytes b0 (by simp))


theorem soft_convert_convention_witness :
    ∃ s, soft_convert 2 [0xA5, 0x01] ⟨List.replicate 16 7, []⟩ = some s ∧
      s.log = List.range 16 ∧ (∀ v ∈ s.data, v = 0 ∨ v = 255) ∧
      repack 2 s.data = [0xA5, 0x01] := by
  obtain ⟨s, h1, h2, _, _, h5, h6⟩ :=
    soft_convert_convention 2 [0xA5, 0x01] (List.replicate 16 7) rfl (by decide) rfl rfl
  exact ⟨s, h1, h2, h5, h6⟩

theorem channel_error_single_bit_witness :
    ∃ s, soft_convert 2 [0xA5, 0x01] ⟨List.replicate 16 7, []⟩ = some s ∧
      ∃ s1, channel_error s = some s1 ∧ s1.data[0]? = some 0 ∧
        hamming_distance (repack 2 s1.data) [0xA5, 0x01] = 1 := by
  obtain ⟨s, h1, _, _, h4⟩ :=
    channel_error_single_bit 2 [0xA5, 0x01] (List.replicate 16 7) rfl (by decide) rfl rfl
  obtain ⟨s1, g1, _, g3, _, _, g6⟩ := h4 (by decide)
  exact ⟨s, h1, s1, g1, g3, g6⟩

theorem libfec_guard_iff (fs : fec_scheme) :
    libfec_guard false fs = true ↔ fs ∈ libfec_schemes := by
  cases fs <;> decide

/-- C10. Built without libfec, `fec_test_soft_codec` warns and returns before creating a
codec exactly for the 17 identifiers of its guard; the 22 autotests pass that list, in
the same order, after `REP3`, `REP5`, `HAMMING74`, `HAMMING84` and `HAMMING128`, no scheme
twice; so the autotests that get past the guard are the five repetition and
Hamming ones, and the 17 convolutional and Reed-Solomon ones are skipped. -/
theorem libfec_guard_autotests :
    (∀ (lib : FecLib) (rand stack : Nat → Nat) (fs : fec_scheme) (n : Nat),
      fec_test_soft_codec false lib rand stack fs n = some TestOutcome.skipped_with_warning ↔
        fs ∈ libfec_schemes) ∧
    libfec_schemes.length = 17 ∧ libfec_schemes.Nodup ∧
    autotest_fecsoft.length = 22 ∧
    autotest_fecsoft.map Prod.fst =
      [LIQUID_FEC_REP3, LIQUID_FEC_REP5, LIQUID_FEC_HAMMING74, LIQUID_FEC_HAMMING84,
        LIQUID_FEC_HAMMING128] ++ libfec_schemes ∧
    (autotest_fecsoft.map Prod.fst).Nodup ∧
    (autotest_fecsoft.filter (fun t => !libfec_guard false t.1)).map Prod.fst =
      [LIQUID_FEC_REP3, LIQUID_FEC_REP5, LIQUID_FEC_HAMMING74, LIQUID_FEC_HAMMING84,
        LIQUID_FEC_HAMMING128] ∧
    (autotest_fecsoft.filter (fun t => libfec_guard false t.1)).map Prod.fst =
      libfec_schemes := by
  refine ⟨?_, by decide, by decide, by decide, by decide, by decide, by decide, by decide⟩
  intro lib rand stack fs n
  rw [← libfec_guard_iff]
  cases hg : libfec_guard false fs with
  | true => simp [fec_test_soft_codec, hg]
  | false =>
    simp only [fec_test_soft_codec, hg, Bool.false_eq_true, if_false, iff_false]
    intro h
    simp only [Option.bind_eq_bind] at h
    obtain ⟨s, -, h⟩ := Option.bind_eq_some.mp h
    obtain ⟨s1, -, h⟩ := Option.bind_eq_some.mp h
    cases h


/-! ## The frame generator -/

theorem Arr.blit_getElem? {α : Type} {n : Nat} (src : List α) (a : Arr α n) (off : Nat)
    (h : off + src.length ≤ n) (j : Nat) :
    (a.blit off src).data[j]? =
      if off ≤ j ∧ j < off + src.length then src[j - off]? else a.data[j]? := by
  induction src generalizing a off with
  | nil =>
    simp only [Arr.blit, List.length_nil, Nat.add_zero]
    rw [if_neg (by omega)]
  | cons x xs ih =>
    simp only [Arr.blit, List.length_cons] at h ⊢
    rw [ih (a.set off x) (off + 1) (by omega)]
    by_cases h1 : off + 1 ≤ j ∧ j < off + 1 + xs.length
    · rw [if_pos h1, if_pos (by omega)]
      obtain ⟨d, hd⟩ : ∃ d, j - off = d + 1 := ⟨j - off - 1, by omega⟩
      rw [hd, List.getElem?_cons_succ]
      congr 1
      omega
    · rw [if_neg h1]
      by_cases h2 : j = off
      · subst h2
        have hlt : j < a.data.length := by rw [a.size_eq]; omega
        rw [if_pos (by omega)]
        simp [Arr.set, hlt]
      · rw [if_neg (by omega)]
        simp only [Arr.set]
        exact List.getElem?_set_ne (Ne.symm h2)


theorem framegen64_concat_eq {ext : Collab} (q : framegen64_s ext) (header payload : List Nat)
    (hh : header.length = 8) (hp : payload.length = 64) :
    framegen64_concat q header payload =
      some { q with payload_dec := (q.payload_dec.blit 0 header).blit 8 payload } := by
  have t1 : header.take 8 = header := List.take_of_length_le (by omega)
  have t2 : payload.take 64 = payload := List.take_of_length_le (by omega)
  simp [framegen64_concat, memmove, hh, hp, t1, t2]

theorem framegen64_execute_eq (ext : Collab) (L : Nat) (q : framegen64_s ext)
    (header payload : List Nat) (frame : List ext.Sample) :
    framegen64_execute ext L q header payload frame =
      (framegen64_concat q header payload).bind (fun q1 =>
        (framegen64_loops ext q1
          (ext.qpilotgen_execute q1.pilotgen
            (ext.qpacketmodem_encode q1.enc q1.payload_dec q1.payload_sym).2 q1.payload_tx).2
          frame).bind (fun s =>
          if s.n = L then
            some { q := { q1 with
                     enc := (ext.qpacketmodem_encode q1.enc q1.payload_dec q1.payload_sym).1
                     pilotgen := (ext.qpilotgen_execute q1.pilotgen
                       (ext.qpacketmodem_encode q1.enc q1.payload_dec q1.payload_sym).2
                       q1.payload_tx).1
                     payload_sym :=
                       (ext.qpacketmodem_encode q1.enc q1.payload_dec q1.payload_sym).2
                     payload_tx := (ext.qpilotgen_execute q1.pilotgen
                       (ext.qpacketmodem_encode q1.enc q1.payload_dec q1.payload_sym).2
                       q1.payload_tx).2
                     interp := s.interp },
                   frame := s.frame, n := s.n, calls := s.calls }
          else none)) := by
  unfold framegen64_execute framegen64_loops
  simp only [Option.bind_eq_bind, Option.bind_assoc]

theorem framegen64_execute_some {ext : Collab} {L : Nat} {q : framegen64_s ext}
    {header payload : List Nat} {frame : List ext.Sample} {r : ExecResult ext}
    (h : framegen64_execute ext L q header payload frame = some r) :
    ∃ q1 s, framegen64_concat q header payload = some q1 ∧
      framegen64_loops ext q1
        (ext.qpilotgen_execute q1.pilotgen
          (ext.qpacketmodem_encode q1.enc q1.payload_dec q1.payload_sym).2 q1.payload_tx).2
        frame = some s ∧
      s.n = L ∧
      r = { q := { q1 with
                enc := (ext.qpacketmodem_encode q1.enc q1.payload_dec q1.payload_sym).1
                pilotgen := (ext.qpilotgen_execute q1.pilotgen
                  (ext.qpacketmodem_encode q1.enc q1.payload_dec q1.payload_sym).2
                  q1.payload_tx).1
                payload_sym := (ext.qpacketmodem_encode q1.enc q1.payload_dec q1.payload_sym).2
                payload_tx := (ext.qpilotgen_execute q1.pilotgen
                  (ext.qpacketmodem_encode q1.enc q1.payload_dec q1.payload_sym).2
                  q1.payload_tx).2
                interp := s.interp },
            frame := s.frame, n := s.n, calls := s.calls } := by
  rw [framegen64_execute_eq] at h
  obtain ⟨q1, hq1, h⟩ := Option.bind_eq_some.mp h
  obtain ⟨s, hs, h⟩ := Option.bind_eq_some.mp h
  refine ⟨q1, s, hq1, hs, ?_⟩
  split at h
  · rename_i hn
    exact ⟨hn, (Option.some.inj h).symm⟩
  · cases h

/-- C5. For an 8-byte header and a 64-byte payload the concatenation step of
`framegen64_execute` succeeds and leaves the header in `payload_dec[0..7]`, the payload
in `payload_dec[8..71]` (the first 72 bytes are header followed by payload), bytes
`payload_dec[72..149]` and every other field of the generator as they were; the
encoder is then run on that array; and 72 = 8 + 64 is the payload length with which
`framegen64_create` configures the packet modem. -/
theorem framegen64_concat_layout (ext : Collab) (q : framegen64_s ext)
    (header payload : List Nat) (hh : header.length = 8) (hp : payload.length = 64) :
    ∃ q1, framegen64_concat q header payload = some q1 ∧
      (∀ j, j < 8 → q1.payload_dec.data[j]? = header[j]?) ∧
      (∀ j, j < 64 → q1.payload_dec.data[8 + j]? = payload[j]?) ∧
      (∀ j, 72 ≤ j → q1.payload_dec.data[j]? = q.payload_dec.data[j]?) ∧
      q1.payload_dec.data.take 72 = header ++ payload ∧
      q1.payload_dec.data.drop 72 = q.payload_dec.data.drop 72 ∧
      q1.enc = q.enc ∧ q1.pilotgen = q.pilotgen ∧ q1.pn_sequence = q.pn_sequence ∧
      q1.payload_sym = q.payload_sym ∧ q1.payload_tx = q.payload_tx ∧ q1.m = q.m ∧
      q1.beta = q.beta ∧ q1.interp = q.interp ∧
      (∀ L frame r, framegen64_execute ext L q header payload frame = some r →
        r.q.payload_dec = q1.payload_dec ∧
        r.q.payload_sym = (ext.qpacketmodem_encode q.enc q1.payload_dec q.payload_sym).2) ∧
      (∀ q0, framegen64_create ext = some q0 →
        q0.enc = ext.qpacketmodem_configure ext.qpacketmodem_create (8 + 64)
          LIQUID_CRC_24 LIQUID_FEC_NONE LIQUID_FEC_GOLAY2412 LIQUID_MODEM_QPSK) := by
  have hrun := framegen64_concat_eq q header payload hh hp
  have hget : ∀ j, ((q.payload_dec.blit 0 header).blit 8 payload).data[j]? =
      if j < 8 then header[j]? else if j < 72 then payload[j - 8]?
      else q.payload_dec.data[j]? := by
    intro j
    rw [Arr.blit_getElem? payload _ 8 (by omega), Arr.blit_getElem? header _ 0 (by omega)]
    by_cases h1 : j < 8
    · rw [if_neg (by omega), if_pos (by omega), if_pos h1]; rfl
    · by_cases h2 : j < 72
      · rw [if_pos (by omega), if_neg h1, if_pos h2]
      · rw [if_neg (by omega), if_neg (by omega), if_neg h1, if_neg h2]
  refine ⟨_, hrun, ?_, ?_, ?_, ?_, ?_, rfl, rfl, rfl, rfl, rfl, rfl, rfl, rfl, ?_, ?_⟩
  · intro j hj
    simp only [hget, if_pos hj]
  · intro j hj
    simp only [hget]
    rw [if_neg (by omega), if_pos (by omega)]
    congr 1
    omega
  · intro j hj
    simp only [hget]
    rw [if_neg (by omega), if_neg (by omega)]
  · apply List.ext_getElem?
    intro j
    simp only [List.getElem?_take, hget, List.getElem?_append, hh]
    by_cases h1 : j < 8
    · simp [h1]; omega
    · by_cases h2 : j < 72
      · simp [h1, h2]
      · simp [h1, h2]
        omega
  · apply List.ext_getElem?
    intro j
    simp only [List.getElem?_drop, hget]
    rw [if_neg (by omega), if_neg (by omega)]
  · intro L frame r hr
    obtain ⟨q2, s3, hq2, -, -, hr⟩ := framegen64_execute_some hr
    rw [hrun] at hq2
    cases hq2
    subst hr
    exact ⟨rfl, rfl⟩
  · intro q0 h0
    unfold framegen64_create at h0
    simp only [] at h0
    split at h0
    · cases h0
    · split at h0
      · cases h0
      · cases h0
        rfl


/-! ### The output loops -/

theorem interp_loop_append (ext : Collab) (src : Nat → Option ext.Sample) (l₁ l₂ : List Nat)
    (s : ExecState ext) :
    interp_loop ext src (l₁ ++ l₂) s =
      (interp_loop ext src l₁ s).bind (interp_loop ext src l₂) := by
  induction l₁ generalizing s with
  | nil => simp [interp_loop]
  | cons i rest ih =>
    simp only [List.cons_append, interp_loop]
    cases (src i).bind (fun x => interp_call ext x s) with
    | none => simp
    | some s1 => simpa using ih s1

theorem interp_call_eq (ext : Collab) (x : ext.Sample) (s : ExecState ext)
    (h : s.n + 1 < s.frame.data.length) :
    interp_call ext x s =
      some { interp := (ext.firinterp_crcf_execute s.interp x).1
             frame := ⟨(s.frame.data.set s.n (ext.firinterp_crcf_execute s.interp x).2.1).set
                        (s.n + 1) (ext.firinterp_crcf_execute s.interp x).2.2,
                      s.frame.log ++ [s.n, s.n + 1]⟩
             n := u32 (s.n + 2)
             calls := s.calls ++ [(x, s.n)] } := by
  unfold interp_call
  simp only [Option.bind_eq_bind]
  rw [Buf.write_of_lt _ _ _ (by omega)]
  simp only [Option.some_bind]
  rw [Buf.write_of_lt _ _ _ (by simp; omega)]
  simp

theorem interp_call_some {ext : Collab} {x : ext.Sample} {s s1 : ExecState ext}
    (h : interp_call ext x s = some s1) :
    s1.n = u32 (s.n + 2) ∧ s1.calls = s.calls ++ [(x, s.n)] ∧
      s1.frame.log = s.frame.log ++ [s.n, s.n + 1] := by
  unfold interp_call at h
  simp only [Option.bind_eq_bind] at h
  obtain ⟨f1, h1, h⟩ := Option.bind_eq_some.mp h
  obtain ⟨f2, h2, h⟩ := Option.bind_eq_some.mp h
  cases h
  unfold Buf.write at h1 h2
  split at h1
  · cases h1
    split at h2
    · cases h2
      simp
    · cases h2
  · cases h1

theorem u32_add_u32 (a b : Nat) : u32 (u32 a + b) = u32 (a + b) := by
  unfold u32; omega

theorem u32_lt (a : Nat) : u32 a < 4294967296 := Nat.mod_lt _ (by decide)

/-- Whenever a loop of interpolator calls runs to its end, it has made one call per index,
the counter has advanced by two per call (modulo `2^32`), and each call has written
the two cells at its offset. -/
theorem interp_loop_some (ext : Collab) (src : Nat → Option ext.Sample) (idxs : List Nat)
    (s s1 : ExecState ext) (h : interp_loop ext src idxs s = some s1)
    (hn : s.n < 4294967296) :
    s1.n = u32 (s.n + 2 * idxs.length) ∧
      s1.calls.length = s.calls.length + idxs.length ∧
      (s.frame.log = s.calls.flatMap (fun c => [c.2, c.2 + 1]) →
        s1.frame.log = s1.calls.flatMap (fun c => [c.2, c.2 + 1])) := by
  induction idxs generalizing s with
  | nil =>
    simp only [interp_loop, Option.some.injEq] at h
    subst h
    refine ⟨?_, by simp, fun h0 => h0⟩
    rw [List.length_nil, Nat.mul_zero, Nat.add_zero, u32_of_lt hn]
  | cons i rest ih =>
    simp only [interp_loop] at h
    obtain ⟨s2, h2, h⟩ := Option.bind_eq_some.mp h
    obtain ⟨x, _, h2⟩ := Option.bind_eq_some.mp h2
    obtain ⟨g1, g2, g3⟩ := interp_call_some h2
    obtain ⟨k1, k3, k4⟩ := ih s2 h (by rw [g1]; exact u32_lt _)
    refine ⟨?_, ?_, ?_⟩
    · rw [k1, g1, u32_add_u32]
      congr 1
      simp only [List.length_cons]
      omega
    · rw [k3, g2]
      simp only [List.length_append, List.length_cons, List.length_nil]
      omega
    · intro h0
      apply k4
      rw [g3, g2, h0]
      simp


/-- A loop of `k` interpolator calls that stays inside `_frame` and inside the range of the
counter runs to its end: call `i` is made at offset `n + 2i` and the cells
`n, n+1, ..., n+2k-1` are written in order. -/
theorem interp_loop_range (ext : Collab) (src : Nat → Option ext.Sample)
    (x : Nat → ext.Sample) (k : Nat) (s : ExecState ext)
    (hsrc : ∀ i, i < k → src i = some (x i))
    (hfit : s.n + 2 * k ≤ s.frame.data.length) (hrange : s.n + 2 * k < 4294967296) :
    ∃ s1, interp_loop ext src (List.range k) s = some s1 ∧ s1.n = s.n + 2 * k ∧
      s1.frame.log = s.frame.log ++ List.range' s.n (2 * k) ∧
      s1.frame.data.length = s.frame.data.length ∧
      s1.calls = s.calls ++ (List.range k).map (fun i => (x i, s.n + 2 * i)) := by
  induction k with
  | zero => exact ⟨s, by simp [interp_loop], by simp, by simp, rfl, by simp⟩
  | succ k ih =>
    obtain ⟨s1, hrun, hn, hlog, hlen, hcalls⟩ :=
      ih (fun i hi => hsrc i (by omega)) (by omega) (by omega)
    have hcall := interp_call_eq ext (x k) s1 (by omega)
    have hrun2 : interp_loop ext src (List.range (k + 1)) s = interp_call ext (x k) s1 := by
      rw [List.range_succ, interp_loop_append, hrun]
      simp only [Option.some_bind, interp_loop, hsrc k (by omega)]
      cases interp_call ext (x k) s1 <;> rfl
    refine ⟨_, hrun2.trans hcall, ?_, ?_, ?_, ?_⟩
    · simp only [hn]
      rw [u32_of_lt (by omega)]
      omega
    · simp only [hlog, hn]
      have e : 2 * (k + 1) = 2 * k + 1 + 1 := by omega
      rw [e, List.range'_1_concat, List.range'_1_concat]
      simp only [List.append_assoc, List.cons_append, List.nil_append, List.append_cancel_left_eq,
        List.cons.injEq, and_true, true_and]
      omega
    · simp [hlen]
    · simp only [hcalls, hn]
      rw [List.range_succ, List.map_append]
      simp [List.append_assoc]

theorem interp_trace_append (ext : Collab) (it : ext.Interp) (xs ys : List ext.Sample) :
    interp_trace ext it (xs ++ ys) =
      ((interp_trace ext (interp_trace ext it xs).1 ys).1,
       (interp_trace ext it xs).2 ++ (interp_trace ext (interp_trace ext it xs).1 ys).2) := by
  induction xs generalizing it with
  | nil => simp [interp_trace]
  | cons x xs ih => simp [interp_trace, ih]

theorem interp_trace_length (ext : Collab) (it : ext.Interp) (xs : List ext.Sample) :
    (interp_trace ext it xs).2.length = 2 * xs.length := by
  induction xs generalizing it with
  | nil => rfl
  | cons x xs ih =>
    simp only [interp_trace, List.length_cons, ih]
    omega

/-- Output samples `2k` and `2k+1` of a run of the interpolator are the two samples of
its call number `k`, made in the state the first `k` symbols left. -/
theorem interp_trace_getElem? (ext : Collab) (it : ext.Interp) (xs : List ext.Sample)
    (k : Nat) (x : ext.Sample) (hx : xs[k]? = some x) :
    (interp_trace ext it xs).2[2 * k]? =
        some (ext.firinterp_crcf_execute (interp_trace ext it (xs.take k)).1 x).2.1 ∧
      (interp_trace ext it xs).2[2 * k + 1]? =
        some (ext.firinterp_crcf_execute (interp_trace ext it (xs.take k)).1 x).2.2 := by
  induction xs generalizing it k with
  | nil => simp at hx
  | cons y ys ih =>
    cases k with
    | zero =>
      simp only [List.getElem?_cons_zero, Option.some.injEq] at hx
      subst hx
      simp [interp_trace]
    | succ k =>
      rw [List.getElem?_cons_succ] at hx
      obtain ⟨h1, h2⟩ := ih (ext.firinterp_crcf_execute it y).1 k hx
      have e1 : 2 * (k + 1) = 2 * k + 1 + 1 := by omega
      simp only [interp_trace, List.take_succ_cons]
      rw [e1]
      simp only [List.getElem?_cons_succ]
      exact ⟨h1, h2⟩

/-- The filter state and the contents of `_frame` after a loop of `k` interpolator calls
that stays inside `_frame` and inside the range of the counter: the cells
`n .. n+2k-1` hold the output samples in the order produced, the others are as before. -/
theorem interp_loop_range_data (ext : Collab) (src : Nat → Option ext.Sample)
    (x : Nat → ext.Sample) (k : Nat) (s s1 : ExecState ext)
    (hsrc : ∀ i, i < k → src i = some (x i))
    (hfit : s.n + 2 * k ≤ s.frame.data.length) (hrange : s.n + 2 * k < 4294967296)
    (h : interp_loop ext src (List.range k) s = some s1) :
    s1.interp = (interp_trace ext s.interp ((List.range k).map x)).1 ∧
      ∀ j, s1.frame.data[j]? =
        if s.n ≤ j ∧ j < s.n + 2 * k then
          (interp_trace ext s.interp ((List.range k).map x)).2[j - s.n]?
        else s.frame.data[j]? := by
  induction k generalizing s1 with
  | zero =>
    simp only [List.range_zero, interp_loop, Option.some.injEq] at h
    subst h
    refine ⟨rfl, fun j => ?_⟩
    rw [if_neg (by omega)]
  | succ k ih =>
    obtain ⟨s0, hrun, hn, -, hlen, -⟩ :=
      interp_loop_range ext src x k s (fun i hi => hsrc i (by omega)) (by omega) (by omega)
    obtain ⟨hi, hd⟩ := ih s0 (fun i hi => hsrc i (by omega)) (by omega) (by omega) hrun
    have hcall := interp_call_eq ext (x k) s0 (by omega)
    rw [List.range_succ, interp_loop_append, hrun] at h
    simp only [Option.some_bind, interp_loop, hsrc k (by omega), hcall,
      Option.some.injEq] at h
    subst h
    have ht := interp_trace_append ext s.interp ((List.range k).map x) [x k]
    have hl := interp_trace_length ext s.interp ((List.range k).map x)
    rw [List.length_map, List.length_range] at hl
    rw [List.range_succ, List.map_append, List.map_singleton, ht]
    simp only [interp_trace, ← hi]
    refine ⟨trivial, fun j => ?_⟩
    have hcase : j = s0.n ∨ j = s0.n + 1 ∨ (j ≠ s0.n ∧ j ≠ s0.n + 1) := by omega
    rcases hcase with hj | hj | ⟨hj1, hj2⟩
    · subst hj
      rw [List.getElem?_set_ne (by omega), List.getElem?_set_self (by omega), if_pos (by omega),
        List.getElem?_append_right (by omega)]
      have e : s0.n - s.n - (interp_trace ext s.interp ((List.range k).map x)).2.length = 0 := by
        omega
      rw [e]
      rfl
    · subst hj
      rw [List.getElem?_set_self (by rw [List.length_set]; omega), if_pos (by omega),
        List.getElem?_append_right (by omega)]
      have e : s0.n + 1 - s.n -
          (interp_trace ext s.interp ((List.range k).map x)).2.length = 1 := by omega
      rw [e]
      rfl
    · rw [List.getElem?_set_ne (Ne.symm hj2), List.getElem?_set_ne (Ne.symm hj1), hd j]
      by_cases hc : s.n ≤ j ∧ j < s.n + 2 * k
      · rw [if_pos hc, if_pos (by omega), List.getElem?_append_left (by omega)]
      · rw [if_neg hc, if_neg (by omega)]

theorem getElem?_eq_some_getD {α : Type} (l : List α) (d : α) (i : Nat) (h : i < l.length) :
    l[i]? = some (l.getD i d) := by
  rw [List.getD_eq_getElem?_getD, List.getElem?_eq_getElem h]
  rfl

/-- The three loops of `framegen64_execute`, for a filter delay `m` with
`2*(64+630+2*m) < 2^32` and an output array of at least that many cells. -/
theorem framegen64_loops_eq (ext : Collab) (q : framegen64_s ext) (tx : Arr ext.Sample 630)
    (frame : List ext.Sample) (hm : 2 * (64 + 630 + 2 * q.m) < 4294967296)
    (hf : 2 * (64 + 630 + 2 * q.m) ≤ frame.length) :
    ∃ s, framegen64_loops ext q tx frame = some s ∧
      s.n = 2 * (64 + 630 + 2 * q.m) ∧
      s.frame.log = List.range (2 * (64 + 630 + 2 * q.m)) ∧
      s.frame.data.length = frame.length ∧
      s.calls =
        (List.range 64).map (fun i => (q.pn_sequence.data.getD i ext.zero, 2 * i)) ++
        (List.range 630).map (fun i => (tx.data.getD i ext.zero, 128 + 2 * i)) ++
        (List.range (2 * q.m)).map (fun i => (ext.zero, 1388 + 2 * i)) := by
  have hu : u32 (2 * q.m) = 2 * q.m := u32_of_lt (by omega)
  obtain ⟨s1, r1, n1, l1, d1, c1⟩ := interp_loop_range ext
    (fun i => q.pn_sequence.data[i]?) (fun i => q.pn_sequence.data.getD i ext.zero) 64
    { interp := ext.firinterp_crcf_reset q.interp, frame := ⟨frame, []⟩, n := 0, calls := [] }
    (fun i hi => getElem?_eq_some_getD _ _ _ (by rw [q.pn_sequence.size_eq]; exact hi))
    (by show 0 + 2 * 64 ≤ frame.length; omega) (by show 0 + 2 * 64 < 4294967296; omega)
  have n1 : s1.n = 128 := n1
  have l1 : s1.frame.log = [] ++ List.range' 0 (2 * 64) := l1
  have d1 : s1.frame.data.length = frame.length := d1
  have c1 : s1.calls =
      [] ++ (List.range 64).map (fun i => (q.pn_sequence.data.getD i ext.zero, 0 + 2 * i)) := c1
  obtain ⟨s2, r2, n2, l2, d2, c2⟩ := interp_loop_range ext
    (fun i => tx.data[i]?) (fun i => tx.data.getD i ext.zero) 630 s1
    (fun i hi => getElem?_eq_some_getD _ _ _ (by rw [tx.size_eq]; exact hi))
    (by rw [n1, d1]; omega) (by rw [n1]; omega)
  rw [n1] at n2 l2 c2
  obtain ⟨s3, r3, n3, l3, d3, c3⟩ := interp_loop_range ext
    (fun _ => some ext.zero) (fun _ => ext.zero) (2 * q.m) s2
    (fun _ _ => rfl)
    (by rw [n2, d2, d1]; omega) (by rw [n2]; omega)
  have e2 : 128 + 2 * 630 = 1388 := by omega
  rw [n2, e2] at n3 l3 c3
  refine ⟨s3, ?_, ?_, ?_, ?_, ?_⟩
  · unfold framegen64_loops
    rw [r1, Option.some_bind, r2, Option.some_bind, hu, r3]
  · rw [n3]; omega
  · rw [l3, l2, l1]
    rw [List.nil_append, List.range_eq_range']
    have a1 : List.range' 0 (2 * 64) ++ List.range' 128 (2 * 630) = List.range' 0 1388 :=
      List.range'_append_1 0 128 1260
    have a2 : List.range' 0 1388 ++ List.range' 1388 (2 * (2 * q.m)) =
        List.range' 0 (2 * (2 * q.m) + 1388) := List.range'_append_1 0 1388 _
    have e : 2 * (2 * q.m) + 1388 = 2 * (64 + 630 + 2 * q.m) := by omega
    rw [a1, a2, e]
  · rw [d3, d2, d1]
  · rw [c3, c2, c1]
    simp only [List.nil_append, Nat.zero_add]


/-- The filter state and the contents of `_frame` after the three loops of
`framegen64_execute`: the first `2*(64+630+2*m)` cells hold, in the order produced, the
output samples of the filter fed the p/n symbols, the payload symbols and `2*m` zeros. -/
theorem framegen64_loops_data (ext : Collab) (q : framegen64_s ext) (tx : Arr ext.Sample 630)
    (frame : List ext.Sample) (s : ExecState ext)
    (hm : 2 * (64 + 630 + 2 * q.m) < 4294967296)
    (hf : 2 * (64 + 630 + 2 * q.m) ≤ frame.length)
    (h : framegen64_loops ext q tx frame = some s) :
    s.interp = (interp_trace ext (ext.firinterp_crcf_reset q.interp)
        ((List.range 64).map (fun i => q.pn_sequence.data.getD i ext.zero) ++
          (List.range 630).map (fun i => tx.data.getD i ext.zero) ++
          (List.range (2 * q.m)).map (fun _ => ext.zero))).1 ∧
      ∀ j, s.frame.data[j]? =
        if j < 2 * (64 + 630 + 2 * q.m) then
          (interp_trace ext (ext.firinterp_crcf_reset q.interp)
            ((List.range 64).map (fun i => q.pn_sequence.data.getD i ext.zero) ++
              (List.range 630).map (fun i => tx.data.getD i ext.zero) ++
              (List.range (2 * q.m)).map (fun _ => ext.zero))).2[j]?
        else frame[j]? := by
  have hu : u32 (2 * q.m) = 2 * q.m := u32_of_lt (by omega)
  unfold framegen64_loops at h
  rw [hu] at h
  obtain ⟨s2, h12, h3⟩ := Option.bind_eq_some.mp h
  obtain ⟨s1, h1, h2⟩ := Option.bind_eq_some.mp h12
  have hsrc1 : ∀ i, i < 64 →
      (fun i => q.pn_sequence.data[i]?) i = some (q.pn_sequence.data.getD i ext.zero) :=
    fun i hi => getElem?_eq_some_getD _ _ _ (by rw [q.pn_sequence.size_eq]; exact hi)
  have hsrc2 : ∀ i, i < 630 → (fun i => tx.data[i]?) i = some (tx.data.getD i ext.zero) :=
    fun i hi => getElem?_eq_some_getD _ _ _ (by rw [tx.size_eq]; exact hi)
  -- first loop
  obtain ⟨s1', r1, n1, -, d1, -⟩ := interp_loop_range ext _ _ 64
    { interp := ext.firinterp_crcf_reset q.interp, frame := ⟨frame, []⟩, n := 0, calls := [] }
    hsrc1 (by show 0 + 2 * 64 ≤ frame.length; omega) (by show 0 + 2 * 64 < 4294967296; omega)
  obtain rfl : s1' = s1 := Option.some.inj (r1.symm.trans h1)
  have n1 : s1'.n = 128 := n1
  have d1 : s1'.frame.data.length = frame.length := d1
  obtain ⟨i1, g1⟩ := interp_loop_range_data ext _ _ 64 _ s1' hsrc1
    (by show 0 + 2 * 64 ≤ frame.length; omega) (by show 0 + 2 * 64 < 4294967296; omega) h1
  have i1 : s1'.interp = (interp_trace ext (ext.firinterp_crcf_reset q.interp)
      ((List.range 64).map (fun i => q.pn_sequence.data.getD i ext.zero))).1 := i1
  have g1 : ∀ j, s1'.frame.data[j]? =
      if 0 ≤ j ∧ j < 0 + 2 * 64 then
        (interp_trace ext (ext.firinterp_crcf_reset q.interp)
          ((List.range 64).map (fun i => q.pn_sequence.data.getD i ext.zero))).2[j - 0]?
      else frame[j]? := g1
  -- second loop
  obtain ⟨s2', r2, n2, -, d2, -⟩ := interp_loop_range ext _ _ 630 s1' hsrc2
    (by rw [n1, d1]; omega) (by rw [n1]; omega)
  obtain rfl : s2' = s2 := Option.some.inj (r2.symm.trans h2)
  obtain ⟨i2, g2⟩ := interp_loop_range_data ext _ _ 630 _ s2' hsrc2
    (by rw [n1, d1]; omega) (by rw [n1]; omega) h2
  rw [n1] at n2 g2
  -- third loop
  obtain ⟨i3, g3⟩ := interp_loop_range_data ext (fun _ => some ext.zero) (fun _ => ext.zero)
    (2 * q.m) _ s (fun _ _ => rfl) (by rw [n2, d2, d1]; omega) (by rw [n2]; omega) h3
  rw [n2] at g3
  -- the three runs of the filter are one run on the concatenated input
  have hl1 := interp_trace_length ext (ext.firinterp_crcf_reset q.interp)
    ((List.range 64).map (fun i => q.pn_sequence.data.getD i ext.zero))
  have hl2 := interp_trace_length ext s1'.interp
    ((List.range 630).map (fun i => tx.data.getD i ext.zero))
  have hl3 := interp_trace_length ext s2'.interp ((List.range (2 * q.m)).map (fun _ => ext.zero))
  rw [List.length_map, List.length_range] at hl1 hl2 hl3
  rw [interp_trace_append, interp_trace_append, ← i1, ← i2]
  have hl12 : ((interp_trace ext (ext.firinterp_crcf_reset q.interp)
      ((List.range 64).map (fun i => q.pn_sequence.data.getD i ext.zero))).2 ++
      (interp_trace ext s1'.interp
        ((List.range 630).map (fun i => tx.data.getD i ext.zero))).2).length = 1388 := by
    rw [List.length_append, hl1, hl2]
  refine ⟨i3, fun j => ?_⟩
  rw [g3 j]
  by_cases c3 : 128 + 2 * 630 ≤ j ∧ j < 128 + 2 * 630 + 2 * (2 * q.m)
  · rw [if_pos c3, if_pos (by omega), List.getElem?_append_right (by rw [hl12]; omega), hl12]
  · rw [if_neg c3, g2 j]
    by_cases c2 : 128 ≤ j ∧ j < 128 + 2 * 630
    · rw [if_pos c2, if_pos (by omega), List.getElem?_append_left (by rw [hl12]; omega),
        List.getElem?_append_right (by rw [hl1]; omega), hl1]
    · rw [if_neg c2, g1 j]
      by_cases c1 : j < 128
      · rw [if_pos (by omega), if_pos (by omega),
          List.getElem?_append_left (by rw [hl12]; omega),
          List.getElem?_append_left (by rw [hl1]; omega), Nat.sub_zero]
      · rw [if_neg (by omega), if_neg (by omega)]

/-- Whenever the three loops of `framegen64_execute` run to their end, the counter and the
number of interpolator calls are the following, and each call has written the two
cells at its offset. -/
theorem framegen64_loops_some (ext : Collab) (q : framegen64_s ext) (tx : Arr ext.Sample 630)
    (frame : List ext.Sample) (s : ExecState ext)
    (h : framegen64_loops ext q tx frame = some s) :
    s.n = u32 (2 * (64 + 630 + u32 (2 * q.m))) ∧
      s.calls.length = 64 + 630 + u32 (2 * q.m) ∧
      s.frame.log = s.calls.flatMap (fun c => [c.2, c.2 + 1]) := by
  unfold framegen64_loops at h
  obtain ⟨s2, h12, h3⟩ := Option.bind_eq_some.mp h
  obtain ⟨s1, h1, h2⟩ := Option.bind_eq_some.mp h12
  obtain ⟨a1, b1, c1⟩ := interp_loop_some ext _ _ _ _ h1 (by show 0 < 4294967296; omega)
  rw [List.length_range] at a1 b1
  have a1 : s1.n = 128 := a1
  have b1 : s1.calls.length = 64 := b1
  have c1 := c1 rfl
  obtain ⟨a2, b2, c2⟩ := interp_loop_some ext _ _ _ _ h2 (by rw [a1]; omega)
  rw [List.length_range, a1] at a2
  rw [List.length_range, b1] at b2
  have a2 : s2.n = 1388 := a2
  have c2 := c2 c1
  obtain ⟨a3, b3, c3⟩ := interp_loop_some ext _ _ _ _ h3 (by rw [a2]; omega)
  rw [List.length_range, a2] at a3
  rw [List.length_range, b2] at b3
  have e : 1388 + 2 * u32 (2 * q.m) = 2 * (64 + 630 + u32 (2 * q.m)) := by omega
  rw [e] at a3
  exact ⟨a3, b3, c3 c2⟩

theorem framegen64_concat_m {ext : Collab} {q q1 : framegen64_s ext} {header payload : List Nat}
    (h : framegen64_concat q header payload = some q1) : q1.m = q.m := by
  unfold framegen64_concat at h
  simp only [Option.bind_eq_bind] at h
  obtain ⟨d1, _, h⟩ := Option.bind_eq_some.mp h
  obtain ⟨d2, _, h⟩ := Option.bind_eq_some.mp h
  cases h
  rfl

theorem framegen64_create_m {ext : Collab} {q0 : framegen64_s ext}
    (h : framegen64_create ext = some q0) : q0.m = 7 := by
  unfold framegen64_create at h
  simp only [] at h
  split at h
  · cases h
  · split at h
    · cases h
    · cases h
      rfl

theorem offsets_eq (m : Nat) :
    (List.range 64).map (fun i => 2 * i) ++ (List.range 630).map (fun i => 128 + 2 * i) ++
      (List.range (2 * m)).map (fun i => 1388 + 2 * i) =
    (List.range (64 + 630 + 2 * m)).map (fun k => 2 * k) := by
  have h1 : (List.range 630).map (fun i => 128 + 2 * i) =
      ((List.range 630).map (64 + ·)).map (fun k => 2 * k) := by
    rw [List.map_map]
    apply List.map_congr_left
    intro a _
    simp only [Function.comp_apply]
    omega
  have h2 : (List.range (2 * m)).map (fun i => 1388 + 2 * i) =
      ((List.range (2 * m)).map (64 + 630 + ·)).map (fun k => 2 * k) := by
    rw [List.map_map]
    apply List.map_congr_left
    intro a _
    simp only [Function.comp_apply]
    omega
  rw [h1, h2, ← List.map_append, ← List.range_add, ← List.map_append, ← List.range_add]


/-- A run of `framegen64_execute` that reaches its end: the closing assertion held, and the
counter, the number of calls and the cells written are as the loops left them. -/
theorem framegen64_execute_counter {ext : Collab} {L : Nat} {q : framegen64_s ext}
    {header payload : List Nat} {frame : List ext.Sample} {r : ExecResult ext}
    (h : framegen64_execute ext L q header payload frame = some r) :
    r.n = L ∧ r.n = u32 (2 * (64 + 630 + u32 (2 * q.m))) ∧
      r.calls.length = 64 + 630 + u32 (2 * q.m) ∧
      r.frame.log = r.calls.flatMap (fun c => [c.2, c.2 + 1]) := by
  obtain ⟨q1, s, hq1, hs, hn, hr⟩ := framegen64_execute_some h
  obtain ⟨a, b, c⟩ := framegen64_loops_some ext q1 _ frame s hs
  rw [framegen64_concat_m hq1] at a b
  subst hr
  exact ⟨hn, a, b, c⟩

/-- For an 8-byte header, a 64-byte payload, a filter delay `m` with
`2*(64+630+2*m) < 2^32` and an output array of at least `2*(64+630+2*m)` cells,
`framegen64_execute` reaches its end when `LIQUID_FRAME64_LEN` is `2*(64+630+2*m)`. -/
theorem framegen64_execute_run (ext : Collab) (q : framegen64_s ext)
    (header payload : List Nat) (frame : List ext.Sample)
    (hh : header.length = 8) (hp : payload.length = 64)
    (hm : 2 * (64 + 630 + 2 * q.m) < 4294967296)
    (hf : 2 * (64 + 630 + 2 * q.m) ≤ frame.length) :
    ∃ r, framegen64_execute ext (2 * (64 + 630 + 2 * q.m)) q header payload frame = some r ∧
      r.n = 2 * (64 + 630 + 2 * q.m) ∧
      r.frame.log = List.range (2 * (64 + 630 + 2 * q.m)) ∧
      r.frame.data.length = frame.length ∧
      r.calls =
        (List.range 64).map (fun i => (q.pn_sequence.data.getD i ext.zero, 2 * i)) ++
        (List.range 630).map (fun i => (r.q.payload_tx.data.getD i ext.zero, 128 + 2 * i)) ++
        (List.range (2 * q.m)).map (fun i => (ext.zero, 1388 + 2 * i)) := by
  have hc := framegen64_concat_eq q header payload hh hp
  obtain ⟨s, hs, h1, h2, h3, h4⟩ := framegen64_loops_eq ext
    { q with payload_dec := (q.payload_dec.blit 0 header).blit 8 payload }
    (ext.qpilotgen_execute q.pilotgen
      (ext.qpacketmodem_encode q.enc ((q.payload_dec.blit 0 header).blit 8 payload)
        q.payload_sym).2 q.payload_tx).2
    frame hm hf
  obtain ⟨r, hr⟩ : ∃ r,
      framegen64_execute ext (2 * (64 + 630 + 2 * q.m)) q header payload frame = some r := by
    rw [framegen64_execute_eq, hc, Option.some_bind, hs, Option.some_bind, if_pos h1]
    exact ⟨_, rfl⟩
  obtain ⟨q1, s1, hq1, hs1, -, hr1⟩ := framegen64_execute_some hr
  rw [hc] at hq1
  cases hq1
  rw [hs] at hs1
  cases hs1
  subst hr1
  exact ⟨_, hr, h1, h2, h3, h4⟩


theorem length_flatMap_pair {α : Type} (l : List (α × Nat)) :
    (l.flatMap (fun c => [c.2, c.2 + 1])).length = 2 * l.length := by
  induction l with
  | nil => rfl
  | cons c cs ih =>
    rw [List.flatMap_cons, List.length_append, ih, List.length_cons, List.length_cons,
      List.length_cons, List.length_nil]
    omega


/-! ## The claims about the frame generator -/

theorem framegen64_concat_layout_witness :
    ∃ q0 q1, framegen64_create sample_collab = some q0 ∧
      framegen64_concat q0 (List.range 8) (List.replicate 64 255) = some q1 ∧
      q1.payload_dec.data.take 72 = List.range 8 ++ List.replicate 64 255 ∧
      q1.payload_dec.data.drop 72 = q0.payload_dec.data.drop 72 ∧ q1.m = q0.m := by
  have h : (framegen64_create sample_collab).isSome = true := rfl
  obtain ⟨q0, hq⟩ := Option.isSome_iff_exists.mp h
  obtain ⟨q1, h1, -, -, -, h5, h6, -, -, -, -, -, h12, -⟩ :=
    framegen64_concat_layout sample_collab q0 (List.range 8) (List.replicate 64 255)
      (List.length_range 8) (List.length_replicate _ _)
  exact ⟨q0, q1, hq, h1, h5, h6, h12⟩

/-- C8. For a generator with filter delay `m`, where the frame length `2*(64+630+2*m)` is
an `unsigned int` value and `_frame` has that many cells, `framegen64_execute` runs to
its end and makes exactly `64 + 630 + 2*m` interpolator calls: first the 64 p/n symbols,
then the 630 payload symbols with pilots (the output of the pilot generator on the
encoded header and payload), then `2*m` zeros, all on the one filter, reset before the
first call.  Call number `k` is made at offset `2k` and writes its two output samples
to `_frame[2k]` and `_frame[2k+1]`; the cells written are `0, 1, ..., 2*(64+630+2*m)-1`,
each once and in order, p/n from 0, payload from 128, settling from 1388, so that
`_frame` ends as the sequence of output samples and the generator keeps the filter in
its last state.  The final counter is `n = 2*(64+630+2*m)`, which is 1416 for the
`m = 7` of `framegen64_create`, and the closing assertion passes only for that value
of `LIQUID_FRAME64_LEN`. -/
theorem framegen64_execute_calls (ext : Collab) (q : framegen64_s ext)
    (header payload : List Nat) (frame : List ext.Sample)
    (hh : header.length = 8) (hp : payload.length = 64)
    (hm : 2 * (64 + 630 + 2 * q.m) < 4294967296)
    (hf : frame.length = 2 * (64 + 630 + 2 * q.m)) :
    ∃ r, framegen64_execute ext (2 * (64 + 630 + 2 * q.m)) q header payload frame = some r ∧
      r.calls.length = 64 + 630 + 2 * q.m ∧
      r.calls =
        (List.range 64).map (fun i => (q.pn_sequence.data.getD i ext.zero, 2 * i)) ++
        (List.range 630).map (fun i => (r.q.payload_tx.data.getD i ext.zero, 128 + 2 * i)) ++
        (List.range (2 * q.m)).map (fun i => (ext.zero, 1388 + 2 * i)) ∧
      r.calls.map Prod.snd = (List.range (64 + 630 + 2 * q.m)).map (fun k => 2 * k) ∧
      r.frame.log = r.calls.flatMap (fun c => [c.2, c.2 + 1]) ∧
      r.frame.log = List.range (2 * (64 + 630 + 2 * q.m)) ∧
      r.n = 2 * (64 + 630 + 2 * q.m) ∧
      (q.m = 7 → r.n = 1416) ∧
      (∀ q0, framegen64_create ext = some q0 → q0.m = 7) ∧
      (∀ L r1, framegen64_execute ext L q header payload frame = some r1 →
        L = 2 * (64 + 630 + 2 * q.m)) ∧
      r.frame.data.length = 2 * (64 + 630 + 2 * q.m) ∧
      r.frame.data =
        (interp_trace ext (ext.firinterp_crcf_reset q.interp) (r.calls.map Prod.fst)).2 ∧
      r.q.interp =
        (interp_trace ext (ext.firinterp_crcf_reset q.interp) (r.calls.map Prod.fst)).1 ∧
      (∀ k c, r.calls[k]? = some c →
        c.2 = 2 * k ∧
        r.frame.data[2 * k]? = some (ext.firinterp_crcf_execute
          (interp_trace ext (ext.firinterp_crcf_reset q.interp)
            ((r.calls.map Prod.fst).take k)).1 c.1).2.1 ∧
        r.frame.data[2 * k + 1]? = some (ext.firinterp_crcf_execute
          (interp_trace ext (ext.firinterp_crcf_reset q.interp)
            ((r.calls.map Prod.fst).take k)).1 c.1).2.2) ∧
      r.q.payload_dec = (q.payload_dec.blit 0 header).blit 8 payload ∧
      r.q.payload_sym = (ext.qpacketmodem_encode q.enc r.q.payload_dec q.payload_sym).2 ∧
      r.q.payload_tx = (ext.qpilotgen_execute q.pilotgen r.q.payload_sym q.payload_tx).2 ∧
      r.q.pn_sequence = q.pn_sequence ∧ r.q.m = q.m := by
  obtain ⟨r, hr, h1, h2, h3, h4⟩ :=
    framegen64_execute_run ext q header payload frame hh hp hm (by omega)
  obtain ⟨-, -, -, c4⟩ := framegen64_execute_counter hr
  have hu : u32 (2 * q.m) = 2 * q.m := u32_of_lt (by omega)
  have hoff : r.calls.map Prod.snd = (List.range (64 + 630 + 2 * q.m)).map (fun k => 2 * k) := by
    rw [h4, ← offsets_eq]
    simp only [List.map_append, List.map_map]
    rfl
  have hlen : r.calls.length = 64 + 630 + 2 * q.m := by
    have := congrArg List.length hoff
    simpa using this
  -- the contents of the output array and the state of the filter
  obtain ⟨q1, s, hq1, hs, -, hrq⟩ := framegen64_execute_some hr
  rw [framegen64_concat_eq q header payload hh hp] at hq1
  cases hq1
  obtain ⟨hi, hd⟩ := framegen64_loops_data ext _ _ frame s hm (by omega) hs
  have e1 : r.calls = s.calls := by rw [hrq]
  have e2 : r.frame = s.frame := by rw [hrq]
  have e3 : r.q.interp = s.interp := by rw [hrq]
  have e4 : r.q.payload_dec = (q.payload_dec.blit 0 header).blit 8 payload := by rw [hrq]
  have e5 : r.q.payload_sym =
      (ext.qpacketmodem_encode q.enc ((q.payload_dec.blit 0 header).blit 8 payload)
        q.payload_sym).2 := by rw [hrq]
  have e6 : r.q.payload_tx =
      (ext.qpilotgen_execute q.pilotgen
        (ext.qpacketmodem_encode q.enc ((q.payload_dec.blit 0 header).blit 8 payload)
          q.payload_sym).2 q.payload_tx).2 := by rw [hrq]
  have e7 : r.q.pn_sequence = q.pn_sequence := by rw [hrq]
  have e8 : r.q.m = q.m := by rw [hrq]
  have hin : r.calls.map Prod.fst =
      (List.range 64).map (fun i => q.pn_sequence.data.getD i ext.zero) ++
        (List.range 630).map (fun i => r.q.payload_tx.data.getD i ext.zero) ++
        (List.range (2 * q.m)).map (fun _ => ext.zero) := by
    rw [h4]
    simp only [List.map_append, List.map_map]
    rfl
  have htl : (interp_trace ext (ext.firinterp_crcf_reset q.interp)
      (r.calls.map Prod.fst)).2.length = 2 * (64 + 630 + 2 * q.m) := by
    rw [interp_trace_length, List.length_map, hlen]
  have hdata : r.frame.data =
      (interp_trace ext (ext.firinterp_crcf_reset q.interp) (r.calls.map Prod.fst)).2 := by
    apply List.ext_getElem?
    intro j
    rw [e2, hd j, hin, e6]
    by_cases hj : j < 2 * (64 + 630 + 2 * q.m)
    · rw [if_pos hj]
    · rw [if_neg hj, List.getElem?_eq_none (by omega), List.getElem?_eq_none]
      rw [← e6, ← hin, htl]
      omega
  refine ⟨r, hr, hlen, h4, hoff, c4, h2, h1, ?_, fun q0 h0 => framegen64_create_m h0, ?_,
    ?_, hdata, ?_, ?_, e4, ?_, ?_, e7, e8⟩
  · intro h7
    rw [h1, h7]
  · intro L r1 hr1
    obtain ⟨a, b, -, -⟩ := framegen64_execute_counter hr1
    rw [← a, b, hu]
    exact u32_of_lt hm
  · rw [hdata, htl]
  · rw [e3, hi, hin, e6]
  · intro k c hc
    have hc1 : (r.calls.map Prod.fst)[k]? = some c.1 := by
      rw [List.getElem?_map, hc]
      rfl
    have hc2 : (r.calls.map Prod.snd)[k]? = some c.2 := by
      rw [List.getElem?_map, hc]
      rfl
    obtain ⟨t1, t2⟩ := interp_trace_getElem? ext (ext.firinterp_crcf_reset q.interp)
      (r.calls.map Prod.fst) k c.1 hc1
    refine ⟨?_, ?_, ?_⟩
    · rw [hoff, List.getElem?_map] at hc2
      have hk : k < 64 + 630 + 2 * q.m := by
        rcases Nat.lt_or_ge k r.calls.length with h | h
        · omega
        · rw [List.getElem?_eq_none h] at hc
          cases hc
      rw [List.getElem?_range hk] at hc2
      exact (Option.some.inj hc2).symm
    · rw [hdata]
      exact t1
    · rw [hdata]
      exact t2
  · rw [e5, e4]
  · rw [e6, e5]

theorem framegen64_execute_calls_witness :
    ∃ q0, framegen64_create sample_collab = some q0 ∧
      ∃ r, framegen64_execute sample_collab 1416 q0 (List.replicate 8 0) (List.replicate 64 0)
          (List.replicate 1416 (0, 0)) = some r ∧
        r.calls.length = 708 ∧ r.frame.log = List.range 1416 ∧ r.n = 1416 ∧
        r.frame.data.length = 1416 ∧
        r.frame.data = (interp_trace sample_collab
          (sample_collab.firinterp_crcf_reset q0.interp) (r.calls.map Prod.fst)).2 := by
  have h : (framegen64_create sample_collab).isSome = true := rfl
  obtain ⟨q0, hq⟩ := Option.isSome_iff_exists.mp h
  have h7 := framegen64_create_m hq
  obtain ⟨r, hr, h1, -, -, -, h5, h6, -, -, -, h10, h11, -⟩ :=
    framegen64_execute_calls sample_collab q0 (List.replicate 8 0) (List.replicate 64 0)
      (List.replicate 1416 (0, 0)) (List.length_replicate _ _) (List.length_replicate _ _)
      (by rw [h7]; decide) (by rw [h7, List.length_replicate])
  rw [h7] at hr h1 h5 h6 h10
  exact ⟨q0, hq, r, hr, h1, h5, h6, h10, h11⟩

/-- C9. For the generator made by `framegen64_create` and any run of `framegen64_execute`
that reaches its end, the symbol counts itemised by `framegen64_print` add up to the
number of symbols interpolated: ramp-up `m` + p/n 64 + ramp-down `m` + payload 600 +
pilots 30 = 64 + 630 + 2*m calls = the printed total `LIQUID_FRAME64_LEN/2` = half the
final counter `n`; and the printed coded length of 150 bytes is 600 symbols at 2 bits
per symbol. -/
theorem framegen64_print_consistent (ext : Collab) (q0 : framegen64_s ext)
    (hq : framegen64_create ext = some q0) (L : Nat) (header payload : List Nat)
    (frame : List ext.Sample) (r : ExecResult ext)
    (hr : framegen64_execute ext L q0 header payload frame = some r) :
    (framegen64_print L q0).ramp_up_symbols + (framegen64_print L q0).pn_symbols +
        (framegen64_print L q0).ramp_down_symbols + (framegen64_print L q0).payload_symbols +
        (framegen64_print L q0).pilot_symbols = r.calls.length ∧
      r.calls.length = 64 + 630 + 2 * q0.m ∧
      r.calls.length = (framegen64_print L q0).total_symbols ∧
      (framegen64_print L q0).total_symbols = r.n / 2 ∧
      r.n = L ∧ 2 * r.calls.length = r.n ∧
      (framegen64_print L q0).payload_len_coded = 150 ∧
      (framegen64_print L q0).payload_len_coded * 8 / 2 =
        (framegen64_print L q0).payload_symbols ∧
      (framegen64_print L q0).payload_len_coded = q0.payload_dec.data.length ∧
      (framegen64_print L q0).payload_symbols = q0.payload_sym.data.length ∧
      (framegen64_print L q0).payload_symbols + (framegen64_print L q0).pilot_symbols =
        q0.payload_tx.data.length := by
  have h7 := framegen64_create_m hq
  obtain ⟨a, b, c, -⟩ := framegen64_execute_counter hr
  rw [h7] at b c
  have b : r.n = 1416 := b
  have c : r.calls.length = 708 := c
  have hL : L = 1416 := by rw [← a, b]
  subst hL
  simp only [framegen64_print, h7, c, b, q0.payload_dec.size_eq, q0.payload_sym.size_eq,
    q0.payload_tx.size_eq]
  decide

theorem framegen64_print_consistent_witness :
    ∃ q0 r, framegen64_create sample_collab = some q0 ∧
      framegen64_execute sample_collab 1416 q0 (List.replicate 8 0) (List.replicate 64 0)
        (List.replicate 1416 (0, 0)) = some r ∧
      r.calls.length = (framegen64_print 1416 q0).total_symbols ∧
      (framegen64_print 1416 q0).total_symbols = 708 := by
  have h : (framegen64_create sample_collab).isSome = true := rfl
  obtain ⟨q0, hq⟩ := Option.isSome_iff_exists.mp h
  have h7 := framegen64_create_m hq
  obtain ⟨r, hr, -⟩ :=
    framegen64_execute_run sample_collab q0 (List.replicate 8 0) (List.replicate 64 0)
      (List.replicate 1416 (0, 0)) (List.length_replicate _ _) (List.length_replicate _ _)
      (by rw [h7]; decide) (by rw [h7, List.length_replicate])
  rw [h7] at hr
  have hc := framegen64_print_consistent sample_collab q0 hq 1416 _ _ _ r hr
  exact ⟨q0, r, hq, hr, hc.2.2.1, rfl⟩

/-- C4 (what the code does). For the generator made by `framegen64_create`, an 8-byte
header, a 64-byte payload and an output array of 1416 cells, `framegen64_execute` with
`LIQUID_FRAME64_LEN = 1416` writes the 1416 cells `0 .. 1415` and ends with `n = 1416`;
every run that reaches its end has `n = 1416`, not 1340; and with
`LIQUID_FRAME64_LEN = 1340` the closing assertion fails. -/
theorem framegen64_frame_samples (ext : Collab) (q0 : framegen64_s ext)
    (hq : framegen64_create ext = some q0) (header payload : List Nat)
    (frame : List ext.Sample) (hh : header.length = 8) (hp : payload.length = 64)
    (hf : frame.length = 1416) :
    (∃ r, framegen64_execute ext 1416 q0 header payload frame = some r ∧ r.n = 1416 ∧
      r.frame.log = List.range 1416 ∧ r.frame.log.length = 1416) ∧
    (∀ L fr r, framegen64_execute ext L q0 header payload fr = some r →
      r.n = 1416 ∧ L = 1416 ∧ r.n ≠ 1340 ∧ r.frame.log.length = 1416) ∧
    (∀ fr, framegen64_execute ext 1340 q0 header payload fr = none) := by
  have h7 := framegen64_create_m hq
  have key : ∀ L fr r, framegen64_execute ext L q0 header payload fr = some r →
      r.n = 1416 ∧ L = 1416 ∧ r.n ≠ 1340 ∧ r.frame.log.length = 1416 := by
    intro L fr r hr
    obtain ⟨a, b, c, d⟩ := framegen64_execute_counter hr
    rw [h7] at b c
    have b : r.n = 1416 := b
    have c : r.calls.length = 708 := c
    refine ⟨b, by rw [← a, b], by rw [b]; decide, ?_⟩
    rw [d, length_flatMap_pair, c]
  refine ⟨?_, key, ?_⟩
  · obtain ⟨r, hr, h1, h2, -⟩ :=
      framegen64_execute_run ext q0 header payload frame hh hp (by rw [h7]; decide)
        (by rw [h7, hf])
    rw [h7] at hr h1 h2
    exact ⟨r, hr, h1, h2, by rw [h2, List.length_range]⟩
  · intro fr
    cases hr : framegen64_execute ext 1340 q0 header payload fr with
    | none => rfl
    | some r =>
      have := (key 1340 fr r hr).2.1
      omega

theorem framegen64_frame_samples_witness :
    ∃ q0, framegen64_create sample_collab = some q0 ∧
      (∃ r, framegen64_execute sample_collab 1416 q0 (List.replicate 8 0) (List.replicate 64 0)
          (List.replicate 1416 (0, 0)) = some r ∧ r.n = 1416 ∧ r.frame.log = List.range 1416) ∧
      framegen64_execute sample_collab 1340 q0 (List.replicate 8 0) (List.replicate 64 0)
        (List.replicate 1340 (0, 0)) = none := by
  have h : (framegen64_create sample_collab).isSome = true := rfl
  obtain ⟨q0, hq⟩ := Option.isSome_iff_exists.mp h
  obtain ⟨⟨r, hr, h1, h2, -⟩, -, h3⟩ :=
    framegen64_frame_samples sample_collab q0 hq (List.replicate 8 0) (List.replicate 64 0)
      (List.replicate 1416 (0, 0)) (List.length_replicate _ _) (List.length_replicate _ _)
      (List.length_replicate _ _)
  exact ⟨q0, hq, ⟨r, hr, h1, h2⟩, h3 _⟩

end Liquid
